import Mathlib

/-!
Verification development for the pretix data-shredder core
(`src/pretix/base/shredder.py`).

The shallow embedding models:
* parsed log-entry payloads as JSON-like values (`JVal`) with mappings
  represented as ordered association lists (Python dicts preserve
  insertion order and have unique keys);
* the eligibility gate `shred_constraints` over integer timestamps
  (seconds; `timedelta(days=60)` is `60 * 86400` seconds);
* the redaction primitive `shred_log_fields` and the four shredders
  (`EmailAddressShredder`, `AttendeeNameShredder`,
  `InvoiceAddressShredder`, `QuestionAnswerShredder`) as pure state
  transformers over an `Event` record; database writes become field
  updates, `delete()` becomes removal from the corresponding list;
* fallible Python operations (TypeError and KeyError on unsupported
  shapes, `parsed_data` on an empty data string) as `Except Unit`.
-/

namespace Shredder

/-- JSON-like values of parsed log payloads. Mappings keep Python dict
insertion order as association lists. -/
inductive JVal where
  | str (s : String)
  | bool (b : Bool)
  | num (n : Int)
  | arr (elems : List JVal)
  | obj (fields : List (String × JVal))

/-- Parsed top-level log-entry payload: a Python dict decoded from JSON. -/
abbrev Payload := List (String × JVal)

/-- The fixed redaction marker written over masked values (the block
character used by the source). -/
def blk : JVal := .str "█"

/-- Python `isinstance(v, bool)`. -/
def JVal.isBool : JVal → Bool
  | .bool _ => true
  | _ => false

/-- Python truthiness of a decoded JSON value. -/
def truthy : JVal → Bool
  | .str s => !s.isEmpty
  | .bool b => b
  | .num n => n != 0
  | .arr xs => !xs.isEmpty
  | .obj kvs => !kvs.isEmpty

/-- Dict key membership, `k in d`. -/
def hasKey : Payload → String → Bool
  | [], _ => false
  | kv :: d, k => if kv.1 = k then true else hasKey d k

/-- Dict read, `d[k]` (first matching entry; Python dicts have unique keys). -/
def lookup : Payload → String → Option JVal
  | [], _ => none
  | kv :: d, k => if kv.1 = k then some kv.2 else lookup d k

/-- String membership in a list of strings (`f in blacklist`,
`k not in whitelist`). -/
def listHas : List String → String → Bool
  | [], _ => false
  | a :: as, k => if a = k then true else listHas as k

/-- Dict assignment `d[k] = v`: replace the value of an existing key in
place, otherwise append the new pair (Python dicts keep insertion order). -/
def setKey (d : Payload) (k : String) (v : JVal) : Payload :=
  if hasKey d k then d.map (fun kv => if kv.1 = k then (kv.1, v) else kv)
  else d ++ [(k, v)]

/-- Boolean list-of-chars prefix test. -/
def prefixOf : List Char → List Char → Bool
  | [], _ => true
  | _ :: _, [] => false
  | a :: as, b :: bs => a == b && prefixOf as bs

/-- Boolean list-of-chars infix test. -/
def infixOf (pat : List Char) : List Char → Bool
  | [] => prefixOf pat []
  | s@(_ :: rest) => prefixOf pat s || infixOf pat rest

/-- Python substring containment `pat in s`; also Django `__contains`. -/
def strContains (s pat : String) : Bool :=
  infixOf pat.toList s.toList

/-- Python `key in container` for an arbitrary decoded value: dict key
membership, substring test on strings, element equality on lists (a string
compares equal only to an equal string), TypeError on numbers/booleans. -/
def pyContains (container : JVal) (key : String) : Except Unit Bool :=
  match container with
  | .obj kvs => .ok (hasKey kvs key)
  | .str s => .ok (strContains s key)
  | .arr xs => .ok (xs.any (fun x => match x with | .str t => t == key | _ => false))
  | .num _ => .error ()
  | .bool _ => .error ()

/-- Python `container[key] = v` with a string key: dict assignment;
TypeError (or KeyError for the `enumerate`-indexed variant) on every
other shape. -/
def pySetKey (container : JVal) (key : String) (v : JVal) : Except Unit JVal :=
  match container with
  | .obj kvs => .ok (.obj (setKey kvs key v))
  | _ => .error ()

/-- Error-propagating list traversal: the sequential Python `for` loop over
a list, stopping at the first raised exception. -/
def mapE (f : α → Except Unit β) : List α → Except Unit (List β)
  | [] => .ok []
  | a :: as =>
    match f a with
    | .error e => .error e
    | .ok b =>
      match mapE f as with
      | .error e => .error e
      | .ok bs => .ok (b :: bs)

/-- Order row: the PII-bearing fields touched by the shredders. -/
structure Order where
  code : String
  email : Option String

/-- Order-position row. `id` is the primary key (referenced by question
answers), `positionid` the per-order position number used in export keys. -/
structure OrderPosition where
  id : Nat
  order_code : String
  positionid : Nat
  attendee_name : Option String
  attendee_email : Option String

/-- Invoice-address row. `serialized` — Modelled from the spec: the output
of `InvoiceAdddressSerializer(ia).data` (the serializer itself lives
outside this repository slice); the spec describes it as a nested
serialized object in the host's record-serialization schema. -/
structure InvoiceAddress where
  order_code : String
  serialized : JVal

/-- Question-answer row. `serialized` — Modelled from the spec: the output
of `AnswerSerializer` for this row (serializer outside this slice). -/
structure QuestionAnswer where
  orderposition : Nat
  serialized : JVal

/-- Log entry. `data = none` models an empty stored data string `""`
(the value excluded by `.exclude(data="")`, and on which `parsed_data`
fails); `data = some d` models a data string parsing to the dict `d`. -/
structure LogEntry where
  action_type : String
  data : Option Payload
  shredded : Bool

/-- Event state. All orders, positions, invoice addresses, answers and
log entries listed here belong to this event (the Django querysets filter
on the event; the embedding scopes them by construction). Timestamps are
integers (seconds); `none` dates are SQL NULL. -/
structure Event where
  date_from : Option Int
  date_to : Option Int
  live : Bool
  orders : List Order
  positions : List OrderPosition
  invoice_addresses : List InvoiceAddress
  answers : List QuestionAnswer
  logentries : List LogEntry

/-- Seconds per day; `timedelta(days=60)` is `60 * daySeconds`. -/
def daySeconds : Int := 86400

/-- Ineligibility reason returned when the event is too recent. -/
def reason60 : String :=
  "Your event needs to be over for at least 60 days to use this feature."

/-- Ineligibility reason returned when the shop is still live. -/
def reasonOffline : String :=
  "Your ticket shop needs to be offline to use this feature."

/-- Eligibility gate `shred_constraints(event)` evaluated at time `t`
(`now()`). Python computes `(event.date_to or event.date_from)`: a
datetime is always truthy, so this is `date_to` when set, else
`date_from`; when both are `None` the comparison with a datetime raises
TypeError (`error`). -/
def shred_constraints (e : Event) (t : Int) : Except Unit (Option String) :=
  match e.date_to.orElse (fun _ => e.date_from) with
  | none => .error ()
  | some d =>
    if d > t - 60 * daySeconds then .ok (some reason60)
    else if e.live then .ok (some reasonOffline)
    else .ok none

/-- Truthiness of an optional list argument (`if whitelist:` in Python:
`None` and the empty list are both falsy). -/
def optListTruthy (o : Option (List String)) : Bool :=
  match o with
  | some l => !l.isEmpty
  | none => false

/-- Whitelist branch of `shred_log_fields`: every key not on the
whitelist is overwritten with the marker. -/
def maskWhitelist (wl : List String) (d : Payload) : Payload :=
  d.map (fun kv => if listHas wl kv.1 then kv else (kv.1, blk))

/-- Blacklist branch of `shred_log_fields`: each listed field is
overwritten with the marker when present; absent fields are skipped. -/
def maskBlacklist (bl : List String) (d : Payload) : Payload :=
  bl.foldl (fun acc f => if hasKey acc f then setKey acc f blk else acc) d

/-- Redaction primitive `shred_log_fields(logentry, blacklist, whitelist)`:
masks the payload by whitelist (when truthy), else by blacklist (when
truthy), re-encodes the payload and sets `shredded = True`, writing both
together. `parsed_data` on an empty data string fails. -/
def shred_log_fields (le : LogEntry) (blacklist whitelist : Option (List String)) :
    Except Unit LogEntry :=
  match le.data with
  | none => .error ()
  | some d =>
    let d' :=
      if optListTruthy whitelist then maskWhitelist (whitelist.getD []) d
      else if optListTruthy blacklist then maskBlacklist (blacklist.getD []) d
      else d
    .ok { le with data := some d', shredded := true }

/-- Shared inner step of the Email and AttendeeName "order modified"
loops. Python iterates `d['data']` and, for each row containing `field`,
assigns the marker to that single field. On a list the rows themselves
are updated; iterating a dict yields its keys and iterating a string its
characters, so there the containment test runs on strings and any
assignment raises (TypeError on a string row for the Email loop, KeyError
via `d['data'][i]` for the AttendeeName loop — both modeled as `error`);
iterating a number or boolean raises TypeError. -/
def maskFieldRow (field : String) (row : JVal) : Except Unit JVal :=
  match pyContains row field with
  | .error e => .error e
  | .ok c => if c then pySetKey row field blk else .ok row

/-- Mask one field in every row of the `d['data']` value (Email and
AttendeeName shredders). Only a list is rebuilt from its transformed rows;
a dict or string survives unchanged exactly when no iteration step would
have raised. -/
def maskFieldInData (field : String) (v : JVal) : Except Unit JVal :=
  match v with
  | .arr rows =>
    match mapE (maskFieldRow field) rows with
    | .error e => .error e
    | .ok rows' => .ok (.arr rows')
  | .str s =>
    match mapE (maskFieldRow field) (s.toList.map (fun c => .str (String.singleton c))) with
    | .error e => .error e
    | .ok _ => .ok v
  | .obj kvs =>
    match mapE (maskFieldRow field) (kvs.map (fun kv => .str kv.1)) with
    | .error e => .error e
    | .ok _ => .ok v
  | .num _ => .error ()
  | .bool _ => .error ()

/-- QuestionAnswer masking of one dict row: every field except
`attendee_name` and `attendee_email` is overwritten with the marker. -/
def maskRowObjQA (kvs : List (String × JVal)) : List (String × JVal) :=
  kvs.map (fun kv =>
    if kv.1 = "attendee_name" ∨ kv.1 = "attendee_email" then kv else (kv.1, blk))

/-- QuestionAnswer masking of one row of `d['data']`. A non-dict row
raises in Python on the first masked field (`d['data'][i][f] = ...` on a
non-dict): a string row iterates its characters and a list row its
elements, so only an empty string, an empty list, or a list whose every
element equals one of the two protected field names completes without an
assignment (Python would index a list row by an int/bool element
positionally; the model treats those rows as errors — no theorem below
depends on that branch). -/
def maskRowAllExcept (row : JVal) : Except Unit JVal :=
  match row with
  | .obj kvs => .ok (.obj (maskRowObjQA kvs))
  | .str s => if s.isEmpty then .ok row else .error ()
  | .arr xs =>
    if xs.all (fun x =>
        match x with
        | .str t => t == "attendee_name" || t == "attendee_email"
        | _ => false)
    then .ok row else .error ()
  | .num _ => .error ()
  | .bool _ => .error ()

/-- QuestionAnswer masking of the whole `d['data']` value. Python
enumerates it: a list is rebuilt row by row; enumerating a dict yields its
keys (each nonempty key string raises via `d['data'][i][f]` with an int
`i` on a dict), enumerating a string yields characters (any character
raises on item assignment); a number or boolean raises on `enumerate`. -/
def maskDataQA (v : JVal) : Except Unit JVal :=
  match v with
  | .arr rows =>
    match mapE maskRowAllExcept rows with
    | .error e => .error e
    | .ok rows' => .ok (.arr rows')
  | .str s => if s.isEmpty then .ok v else .error ()
  | .obj kvs => if kvs.all (fun kv => kv.1 == "") then .ok v else .error ()
  | .num _ => .error ()
  | .bool _ => .error ()

/-- InvoiceAddress masking of a dict `invoice_data`: every field with a
truthy value is overwritten with the marker, falsy values stay. -/
def maskInvoiceObj (kvs : List (String × JVal)) : List (String × JVal) :=
  kvs.map (fun kv => if truthy kv.2 then (kv.1, blk) else kv)

/-- InvoiceAddress masking of the `d['invoice_data']` value (already
known not to be a boolean): dicts are masked field by field; iterating a
nonempty string raises on the string index `X[field]`, a nonempty list on
its non-int elements (int/bool elements would index positionally; modeled
as errors — no theorem below depends on that branch), and a number on
iteration. -/
def maskInvoiceData (v : JVal) : Except Unit JVal :=
  match v with
  | .obj kvs => .ok (.obj (maskInvoiceObj kvs))
  | .str s => if s.isEmpty then .ok v else .error ()
  | .arr xs => if xs.isEmpty then .ok v else .error ()
  | .num _ => .error ()
  | .bool _ => .error ()

/-- EmailAddressShredder's per-entry step for `order.modified` entries
(data string nonempty): when the payload has a `data` key, mask
`attendee_email` in every row and write payload plus `shredded = True`;
otherwise the entry is read but left entirely unchanged. -/
def emailModifiedEntry (le : LogEntry) : Except Unit LogEntry :=
  match le.data with
  | none => .error ()
  | some d =>
    match lookup d "data" with
    | none => .ok le
    | some v =>
      match maskFieldInData "attendee_email" v with
      | .error e => .error e
      | .ok v' => .ok { le with data := some (setKey d "data" v'), shredded := true }

/-- AttendeeNameShredder's per-entry step for `order.modified` entries:
like the email step but masking `attendee_name`. -/
def nameModifiedEntry (le : LogEntry) : Except Unit LogEntry :=
  match le.data with
  | none => .error ()
  | some d =>
    match lookup d "data" with
    | none => .ok le
    | some v =>
      match maskFieldInData "attendee_name" v with
      | .error e => .error e
      | .ok v' => .ok { le with data := some (setKey d "data" v'), shredded := true }

/-- InvoiceAddressShredder's per-entry step: when the payload has a
non-boolean `invoice_data`, mask its truthy fields and write payload plus
`shredded = True`; otherwise leave the entry entirely unchanged. -/
def invoiceModifiedEntry (le : LogEntry) : Except Unit LogEntry :=
  match le.data with
  | none => .error ()
  | some d =>
    match lookup d "invoice_data" with
    | none => .ok le
    | some v =>
      if v.isBool then .ok le
      else
        match maskInvoiceData v with
        | .error e => .error e
        | .ok v' =>
          .ok { le with data := some (setKey d "invoice_data" v'), shredded := true }

/-- QuestionAnswerShredder's per-entry step: when the payload has a
`data` key, mask every row field except the two protected ones and write
payload plus `shredded = True`; otherwise leave the entry unchanged. -/
def qaModifiedEntry (le : LogEntry) : Except Unit LogEntry :=
  match le.data with
  | none => .error ()
  | some d =>
    match lookup d "data" with
    | none => .ok le
    | some v =>
      match maskDataQA v with
      | .error e => .error e
      | .ok v' => .ok { le with data := some (setKey d "data" v'), shredded := true }

/-- Guard of the `order.modified` loops:
`filter(action_type="pretix.event.order.modified").exclude(data="")`. -/
def modifiedGuard (le : LogEntry) : Bool :=
  le.action_type == "pretix.event.order.modified" && le.data.isSome

/-- EmailAddressShredder.shred_data: null `attendee_email` on positions
and `email` on orders, then three sequential log passes — blacklist
masking of entries whose action type contains `order.email`, blacklist
masking of `contact.changed` entries, and per-row `attendee_email`
masking of `order.modified` entries. -/
def shred_data_email (e : Event) : Except Unit Event :=
  let positions := e.positions.map (fun p =>
    if p.attendee_email.isSome then { p with attendee_email := none } else p)
  let orders := e.orders.map (fun o =>
    if o.email.isSome then { o with email := none } else o)
  match mapE (fun le =>
      if strContains le.action_type "order.email" then
        shred_log_fields le (some ["recipient", "message"]) none
      else .ok le) e.logentries with
  | .error e => .error e
  | .ok l1 =>
    match mapE (fun le =>
        if le.action_type == "pretix.event.order.contact.changed" then
          shred_log_fields le (some ["old_email", "new_email"]) none
        else .ok le) l1 with
    | .error e => .error e
    | .ok l2 =>
      match mapE (fun le =>
          if modifiedGuard le then emailModifiedEntry le else .ok le) l2 with
      | .error e => .error e
      | .ok l3 => .ok { e with orders := orders, positions := positions, logentries := l3 }

/-- AttendeeNameShredder.shred_data: null `attendee_name` on positions,
then mask `attendee_name` rows of `order.modified` entries. -/
def shred_data_name (e : Event) : Except Unit Event :=
  let positions := e.positions.map (fun p =>
    if p.attendee_name.isSome then { p with attendee_name := none } else p)
  match mapE (fun le =>
      if modifiedGuard le then nameModifiedEntry le else .ok le) e.logentries with
  | .error e => .error e
  | .ok l1 => .ok { e with positions := positions, logentries := l1 }

/-- InvoiceAddressShredder.shred_data: delete all invoice-address rows of
the event, then mask truthy `invoice_data` fields of `order.modified`
entries. -/
def shred_data_invoice (e : Event) : Except Unit Event :=
  match mapE (fun le =>
      if modifiedGuard le then invoiceModifiedEntry le else .ok le) e.logentries with
  | .error e => .error e
  | .ok l1 => .ok { e with invoice_addresses := [], logentries := l1 }

/-- QuestionAnswerShredder.shred_data: delete all question-answer rows of
the event's positions, then mask all non-protected row fields of
`order.modified` entries. -/
def shred_data_qa (e : Event) : Except Unit Event :=
  match mapE (fun le =>
      if modifiedGuard le then qaModifiedEntry le else .ok le) e.logentries with
  | .error e => .error e
  | .ok l1 => .ok { e with answers := [], logentries := l1 }

/-- One exported file: filename, MIME type, and content. The content is
the mapping passed to `json.dumps(..., indent=4)`; the embedding keeps
the mapping itself rather than its UTF-8 JSON text. -/
structure ExportFile where
  name : String
  mime : String
  content : Payload

/-- Export key `"{order-code}-{position-id}"`. -/
def formatKey (code : String) (pid : Nat) : String :=
  code ++ "-" ++ toString pid

/-- EmailAddressShredder.generate_files: two files, emails by order and
attendee emails by position. The source performs no database writes here,
so the state-passing embedding returns the event unchanged. -/
def generate_files_email (e : Event) : List ExportFile × Event :=
  ([⟨"emails-by-order.json", "application/json",
      (e.orders.filter (fun o => o.email.isSome)).map
        (fun o => (o.code, JVal.str (o.email.getD "")))⟩,
    ⟨"emails-by-attendee.json", "application/json",
      (e.positions.filter (fun p => p.attendee_email.isSome)).map
        (fun p => (formatKey p.order_code p.positionid,
                   JVal.str (p.attendee_email.getD "")))⟩], e)

/-- AttendeeNameShredder.generate_files: attendee names by position. -/
def generate_files_name (e : Event) : List ExportFile × Event :=
  ([⟨"attendee-names.json", "application/json",
      (e.positions.filter (fun p => p.attendee_name.isSome)).map
        (fun p => (formatKey p.order_code p.positionid,
                   JVal.str (p.attendee_name.getD "")))⟩], e)

/-- InvoiceAddressShredder.generate_files: serialized addresses by order
code. -/
def generate_files_invoice (e : Event) : List ExportFile × Event :=
  ([⟨"invoice-addresses.json", "application/json",
      e.invoice_addresses.map (fun ia => (ia.order_code, ia.serialized))⟩], e)

/-- QuestionAnswerShredder.generate_files: serialized answer lists by
position (every position of the event, also those without answers). -/
def generate_files_qa (e : Event) : List ExportFile × Event :=
  ([⟨"question-answers.json", "application/json",
      e.positions.map (fun op =>
        (formatKey op.order_code op.positionid,
         JVal.arr ((e.answers.filter (fun a => a.orderposition == op.id)).map
           (fun a => a.serialized))))⟩], e)

/-- Value of an `Except` result, defaulting on error. -/
def exGetD (x : Except Unit α) (d : α) : α :=
  match x with
  | .ok a => a
  | .error _ => d

/-- Event with no records, no log entries, no dates, not live. -/
def emptyEvent : Event :=
  { date_from := none, date_to := none, live := false, orders := [],
    positions := [], invoice_addresses := [], answers := [], logentries := [] }

/-- Event whose `date_from` lies 10 days and whose `date_to` lies 90 days
before time 0, not live: `date_to or date_from` picks `date_to`. -/
def evDates : Event :=
  { emptyEvent with date_from := some (-864000), date_to := some (-7776000) }

/-- Live event whose single date is exactly the evaluation time. -/
def evLiveNow : Event :=
  { emptyEvent with date_to := some 0, live := true }

/-- Live event that ended 90 days before time 0. -/
def evLiveOld : Event :=
  { emptyEvent with date_to := some (-7776000), live := true }

/-- Event that ended 90 days before time 0 and is offline. -/
def evOldOffline : Event :=
  { emptyEvent with date_to := some (-7776000) }

/-- An `order.modified` log entry with a nonempty data string whose
payload has no `data` key: scanned by the shredders but never marked. -/
def leNoDataKey : LogEntry :=
  { action_type := "pretix.event.order.modified",
    data := some [("foo", .str "x")], shredded := false }

/-- Event holding only `leNoDataKey`. -/
def evNoDataKey : Event :=
  { emptyEvent with logentries := [leNoDataKey] }

/-- Log entry whose action type contains `order.email`. -/
def leWemail : LogEntry :=
  { action_type := "pretix.event.order.email.sent",
    data := some [("recipient", .str "a@b.c"), ("message", .str "hi"),
                  ("subject", .str "s")],
    shredded := false }

/-- A `contact.changed` log entry. -/
def leWcontact : LogEntry :=
  { action_type := "pretix.event.order.contact.changed",
    data := some [("old_email", .str "a@b.c"), ("new_email", .str "x@y.z")],
    shredded := false }

/-- One order-modified row holding the two protected fields and one
question answer. -/
def rowJane3 : List (String × JVal) :=
  [("attendee_name", .str "Jane Doe"), ("attendee_email", .str "j@x.com"),
   ("q1", .str "blue")]

/-- The Acme invoice mapping of the spec scenario. -/
def kvsAcme : List (String × JVal) :=
  [("company", .str "Acme"), ("vat_id", .str "")]

/-- Payload of the order-modified witness entry: a data list with one row
and an invoice mapping. -/
def dWmod : Payload :=
  [("data", .arr [.obj rowJane3]), ("invoice_data", .obj kvsAcme)]

/-- An `order.modified` log entry with one well-formed row and an
`invoice_data` mapping. -/
def leWmod : LogEntry :=
  { action_type := "pretix.event.order.modified",
    data := some dWmod, shredded := false }

/-- A fully populated event used to exercise all four shredders. -/
def evFull : Event :=
  { emptyEvent with
    orders := [{ code := "ORD1", email := some "a@b.c" }],
    positions := [{ id := 1, order_code := "ORD1", positionid := 1,
                    attendee_name := some "Jane Doe",
                    attendee_email := some "j@x.com" }],
    invoice_addresses := [{ order_code := "ORD1", serialized := .str "addr" }],
    answers := [{ orderposition := 1, serialized := .str "blue" }],
    logentries := [leWemail, leWcontact, leWmod] }

/-- The Jane Doe row of the question-answer scenario: only the two
protected fields. -/
def rowJane : List (String × JVal) :=
  [("attendee_name", .str "Jane Doe"), ("attendee_email", .str "j@x.com")]

/-- An `order.modified` entry whose data list holds only the Jane row. -/
def leJane : LogEntry :=
  { action_type := "pretix.event.order.modified",
    data := some [("data", .arr [.obj rowJane])], shredded := false }

/-- An `order.modified` entry whose `invoice_data` is the number 5:
not a boolean, but not a mapping either. -/
def leNum5 : LogEntry :=
  { action_type := "pretix.event.order.modified",
    data := some [("invoice_data", .num 5)], shredded := false }

/-- Three-field payload used by the redaction-primitive witnesses. -/
def dWfields : Payload :=
  [("old_email", .str "a@b.c"), ("note", .str "keep"), ("count", .num 2)]

/-- A log entry with a three-field payload used by the redaction-primitive
witnesses. -/
def leWfields : LogEntry :=
  { action_type := "pretix.event.order.contact.changed",
    data := some dWfields, shredded := false }

/-- Result entry of the AttendeeName order-modified step on `leWmod`. -/
def leWmodName : LogEntry := exGetD (nameModifiedEntry leWmod) leWmod

/-- Payload of `leWmodName`. -/
def dWmodName : Payload := leWmodName.data.getD []

/-- Result entry of the Email order-modified step on `leWmod`. -/
def leWmodEmail : LogEntry := exGetD (emailModifiedEntry leWmod) leWmod

/-- Payload of `leWmodEmail`. -/
def dWmodEmail : Payload := leWmodEmail.data.getD []

/-- Result entry of the InvoiceAddress order-modified step on `leWmod`. -/
def leWmodInv : LogEntry := exGetD (invoiceModifiedEntry leWmod) leWmod

/-- Payload of `leWmodInv`. -/
def dWmodInv : Payload := leWmodInv.data.getD []

/-- Result entry of the QuestionAnswer order-modified step on `leWmod`. -/
def leWmodQA : LogEntry := exGetD (qaModifiedEntry leWmod) leWmod

/-- Payload of `leWmodQA`. -/
def dWmodQA : Payload := leWmodQA.data.getD []

/-- Field read on one row of a `data` list: dict lookup on a mapping row,
nothing on any other shape. -/
def rowLookup (row : JVal) (f : String) : Option JVal :=
  match row with
  | .obj kvs => lookup kvs f
  | _ => none

/-- Taken from the claim wording, for comparison against the code: the
later of the event's declared start and end times, over whichever of the
two dates are set. -/
def maxDate (e : Event) : Option Int :=
  match e.date_from, e.date_to with
  | some a, some b => some (max a b)
  | some a, none => some a
  | none, some b => some b
  | none, none => none

/-- Taken from the claim wording, for comparison against the code: the
condition under which claim C1 demands an ineligibility reason —
`max(date_from, date_to)` is not more than 60 days before `t`, or the
event is live. -/
def specC1ReasonRequired (e : Event) (t : Int) : Prop :=
  (∃ m, maxDate e = some m ∧ t - m ≤ 60 * daySeconds) ∨ e.live = true

theorem lookup_eq_none_iff (d : Payload) (k : String) :
    lookup d k = none ↔ hasKey d k = false := by
  induction d with
  | nil => simp [lookup, hasKey]
  | cons kv d ih => by_cases hq : kv.1 = k <;> simp [lookup, hasKey, hq, ih]

theorem lookup_isSome_of_hasKey {d : Payload} {k : String}
    (h : hasKey d k = true) : ∃ v, lookup d k = some v := by
  induction d with
  | nil => simp [hasKey] at h
  | cons kv d ih =>
    by_cases hq : kv.1 = k
    · exact ⟨kv.2, by simp [lookup, hq]⟩
    · simp [hasKey, hq] at h
      obtain ⟨v, hv⟩ := ih h
      exact ⟨v, by simp [lookup, hq, hv]⟩

theorem hasKey_of_lookup {d : Payload} {k : String} {v : JVal}
    (h : lookup d k = some v) : hasKey d k = true := by
  cases hh : hasKey d k
  · rw [(lookup_eq_none_iff d k).mpr hh] at h
    exact Option.noConfusion h
  · rfl

theorem lookup_set_map (d : Payload) (k k' : String) (v : JVal) :
    lookup (d.map (fun kv => if kv.1 = k then (kv.1, v) else kv)) k'
      = (lookup d k').map (fun w => if k' = k then v else w) := by
  induction d with
  | nil => simp [lookup]
  | cons kv d ih =>
    by_cases hp : kv.1 = k'
    · subst hp
      by_cases hq : kv.1 = k
      · subst hq
        simp [lookup]
      · simp [lookup, hq]
    · by_cases hq : kv.1 = k
      · subst hq
        simp [lookup, hp, ih]
      · simp [lookup, hp, hq, ih]

theorem hasKey_set_map (d : Payload) (k k' : String) (v : JVal) :
    hasKey (d.map (fun kv => if kv.1 = k then (kv.1, v) else kv)) k'
      = hasKey d k' := by
  induction d with
  | nil => rfl
  | cons kv d ih =>
    by_cases hq : kv.1 = k
    · subst hq
      simp [hasKey, ih]
    · simp [hasKey, hq, ih]

theorem hasKey_append (d d₂ : Payload) (k : String) :
    hasKey (d ++ d₂) k = (hasKey d k || hasKey d₂ k) := by
  induction d with
  | nil => simp [hasKey]
  | cons kv d ih => simp [hasKey, ih, Bool.or_assoc]

theorem lookup_append_right {d : Payload} {k : String}
    (h : hasKey d k = false) (d₂ : Payload) :
    lookup (d ++ d₂) k = lookup d₂ k := by
  induction d with
  | nil => simp
  | cons kv d ih =>
    by_cases hq : kv.1 = k
    · subst hq
      simp [hasKey] at h
    · simp [hasKey, hq] at h
      simp [lookup, hq, ih h]

theorem lookup_append_left {d : Payload} {k : String} {v : JVal}
    (h : lookup d k = some v) (d₂ : Payload) :
    lookup (d ++ d₂) k = some v := by
  induction d with
  | nil => simp [lookup] at h
  | cons kv d ih =>
    by_cases hq : kv.1 = k
    · simp [lookup, hq] at h ⊢
      exact h
    · simp [lookup, hq] at h ⊢
      exact ih h

theorem map_set_not_has {d : Payload} {k : String} (v : JVal)
    (h : hasKey d k = false) :
    d.map (fun kv => if kv.1 = k then (kv.1, v) else kv) = d := by
  induction d with
  | nil => rfl
  | cons kv d ih =>
    by_cases hq : kv.1 = k
    · subst hq
      simp [hasKey] at h
    · simp [hasKey, hq] at h
      simp [hq, ih h]

theorem map_set_idem (d : Payload) (k : String) (v : JVal) :
    (d.map (fun kv => if kv.1 = k then (kv.1, v) else kv)).map
        (fun kv => if kv.1 = k then (kv.1, v) else kv)
      = d.map (fun kv => if kv.1 = k then (kv.1, v) else kv) := by
  induction d with
  | nil => rfl
  | cons kv d ih =>
    by_cases hq : kv.1 = k
    · subst hq
      simp [ih]
    · simp [hq, ih]

theorem lookup_setKey_self (d : Payload) (k : String) (v : JVal) :
    lookup (setKey d k v) k = some v := by
  cases hh : hasKey d k
  · rw [setKey, hh]
    simp only [Bool.false_eq_true, if_false]
    rw [lookup_append_right hh]
    simp [lookup]
  · rw [setKey, hh, if_pos rfl, lookup_set_map]
    obtain ⟨w, hw⟩ := lookup_isSome_of_hasKey hh
    simp [hw]

theorem lookup_setKey_ne (d : Payload) {k k' : String} (v : JVal)
    (hne : k' ≠ k) : lookup (setKey d k v) k' = lookup d k' := by
  cases hh : hasKey d k
  · rw [setKey, hh]
    simp only [Bool.false_eq_true, if_false]
    cases hl : lookup d k' with
    | some w => exact lookup_append_left hl _
    | none =>
      rw [lookup_append_right ((lookup_eq_none_iff d k').mp hl)]
      have hkk : ¬k = k' := fun hk => hne hk.symm
      simp [lookup, hkk]
  · rw [setKey, hh, if_pos rfl, lookup_set_map]
    cases hl : lookup d k' <;> simp [hne]

theorem hasKey_setKey_self (d : Payload) (k : String) (v : JVal) :
    hasKey (setKey d k v) k = true := by
  cases hh : hasKey d k
  · rw [setKey, hh]
    simp [hasKey_append, hasKey]
  · rw [setKey, hh, if_pos rfl, hasKey_set_map]
    exact hh

theorem hasKey_setKey (d : Payload) (k k' : String) (v : JVal) :
    hasKey (setKey d k v) k' = (hasKey d k' || decide (k = k')) := by
  cases hh : hasKey d k
  · rw [setKey, hh]
    simp [hasKey_append, hasKey]
  · rw [setKey, hh, if_pos rfl, hasKey_set_map]
    by_cases hq : k = k'
    · subst hq
      simp [hh]
    · simp [hq]

theorem setKey_setKey_same (d : Payload) (k : String) (v : JVal) :
    setKey (setKey d k v) k v = setKey d k v := by
  cases hh : hasKey d k
  · have h1 : setKey d k v = d ++ [(k, v)] := by
      rw [setKey, hh]; simp
    have h2 : hasKey (d ++ [(k, v)]) k = true := by
      simp [hasKey_append, hasKey]
    rw [h1, setKey, h2, if_pos rfl, List.map_append, map_set_not_has v hh]
    simp
  · have h1 : setKey d k v = d.map (fun kv => if kv.1 = k then (kv.1, v) else kv) := by
      rw [setKey, hh]
      simp
    have h2 : hasKey (setKey d k v) k = true := hasKey_setKey_self d k v
    rw [setKey, h2, if_pos rfl]
    simp only [h1]
    exact map_set_idem d k v

theorem hasKey_of_mem {d : Payload} {kv : String × JVal} (h : kv ∈ d) :
    hasKey d kv.1 = true := by
  induction d with
  | nil => simp at h
  | cons kv' d ih =>
    rcases List.mem_cons.mp h with h | h
    · subst h
      simp [hasKey]
    · by_cases hq : kv'.1 = kv.1 <;> simp [hasKey, hq, ih h]

theorem listHas_iff_mem (l : List String) (k : String) :
    listHas l k = true ↔ k ∈ l := by
  induction l with
  | nil => simp [listHas]
  | cons a as ih =>
    by_cases hq : a = k
    · subst hq
      simp [listHas]
    · have hq' : ¬k = a := fun hx => hq hx.symm
      simp [listHas, hq, hq', ih]

theorem truthy_blk : truthy blk = true := by decide

theorem maskWhitelist_nil (wl : List String) : maskWhitelist wl [] = [] := rfl

theorem maskWhitelist_cons (wl : List String) (kv : String × JVal) (d : Payload) :
    maskWhitelist wl (kv :: d)
      = (if listHas wl kv.1 then kv else (kv.1, blk)) :: maskWhitelist wl d := rfl

theorem maskInvoiceObj_nil : maskInvoiceObj [] = [] := rfl

theorem maskInvoiceObj_cons (kv : String × JVal) (d : List (String × JVal)) :
    maskInvoiceObj (kv :: d)
      = (if truthy kv.2 then (kv.1, blk) else kv) :: maskInvoiceObj d := rfl

theorem maskRowObjQA_nil : maskRowObjQA [] = [] := rfl

theorem maskRowObjQA_cons (kv : String × JVal) (d : List (String × JVal)) :
    maskRowObjQA (kv :: d)
      = (if kv.1 = "attendee_name" ∨ kv.1 = "attendee_email" then kv
         else (kv.1, blk)) :: maskRowObjQA d := rfl

theorem lookup_maskWhitelist (wl : List String) (d : Payload) (k : String) :
    lookup (maskWhitelist wl d) k
      = (lookup d k).map (fun v => if listHas wl k then v else blk) := by
  induction d with
  | nil => simp [maskWhitelist, lookup]
  | cons kv d ih =>
    rw [maskWhitelist_cons]
    by_cases hp : kv.1 = k
    · subst hp
      cases hw : listHas wl kv.1 <;> simp only [lookup] <;> simp [hw]
    · cases hw : listHas wl kv.1 <;> simp only [lookup] <;> simp [hp, hw, ih]

theorem maskWhitelist_idem (wl : List String) (d : Payload) :
    maskWhitelist wl (maskWhitelist wl d) = maskWhitelist wl d := by
  induction d with
  | nil => rfl
  | cons kv d ih =>
    rw [maskWhitelist_cons]
    cases hw : listHas wl kv.1
    · simp only [hw, Bool.false_eq_true, if_false]
      rw [maskWhitelist_cons]
      simp [hw, ih]
    · simp only [hw, if_true]
      rw [maskWhitelist_cons]
      simp [hw, ih]

theorem map_bl_cons (f : String) (bl : List String) (d : Payload) :
    (d.map (fun kv => if kv.1 = f then (kv.1, blk) else kv)).map
        (fun kv => if listHas bl kv.1 then (kv.1, blk) else kv)
      = d.map (fun kv => if listHas (f :: bl) kv.1 then (kv.1, blk) else kv) := by
  induction d with
  | nil => rfl
  | cons kv d ih =>
    by_cases hq : kv.1 = f
    · subst hq
      simp [listHas, ih]
    · have hq' : ¬f = kv.1 := fun hx => hq hx.symm
      simp [listHas, hq, hq', ih]

theorem maskBlacklist_eq_map (bl : List String) (d : Payload) :
    maskBlacklist bl d
      = d.map (fun kv => if listHas bl kv.1 then (kv.1, blk) else kv) := by
  induction bl generalizing d with
  | nil => simp [maskBlacklist, listHas]
  | cons f bl ih =>
    have h1 : maskBlacklist (f :: bl) d
        = maskBlacklist bl (if hasKey d f then setKey d f blk else d) := rfl
    have hstep : (if hasKey d f then setKey d f blk else d)
        = d.map (fun kv => if kv.1 = f then (kv.1, blk) else kv) := by
      cases hh : hasKey d f
      · simpa using (map_set_not_has blk hh).symm
      · simp [setKey, hh]
    rw [h1, hstep, ih, map_bl_cons]

theorem lookup_maskBlacklist (bl : List String) (d : Payload) (k : String) :
    lookup (maskBlacklist bl d) k
      = (lookup d k).map (fun v => if listHas bl k then blk else v) := by
  rw [maskBlacklist_eq_map]
  induction d with
  | nil => simp [lookup]
  | cons kv d ih =>
    by_cases hp : kv.1 = k
    · subst hp
      cases hb : listHas bl kv.1 <;> simp [lookup, hb]
    · cases hb : listHas bl kv.1 <;> simp [lookup, hp, hb, ih]

theorem maskBlacklist_idem (bl : List String) (d : Payload) :
    maskBlacklist bl (maskBlacklist bl d) = maskBlacklist bl d := by
  rw [maskBlacklist_eq_map, maskBlacklist_eq_map]
  induction d with
  | nil => rfl
  | cons kv d ih =>
    cases hb : listHas bl kv.1 <;> simp [hb, ih]

theorem map_bl_id {bl : List String} :
    ∀ {d : Payload}, (∀ kv ∈ d, listHas bl kv.1 = false) →
      d.map (fun kv => if listHas bl kv.1 then (kv.1, blk) else kv) = d := by
  intro d
  induction d with
  | nil => intro _; rfl
  | cons kv d ih =>
    intro h
    have h1 : listHas bl kv.1 = false := h kv (List.mem_cons_self kv d)
    have h2 : ∀ kv' ∈ d, listHas bl kv'.1 = false :=
      fun kv' hm => h kv' (List.mem_cons_of_mem kv hm)
    simp [h1, ih h2]

theorem maskBlacklist_not_present {bl : List String} {d : Payload}
    (h : ∀ f ∈ bl, hasKey d f = false) : maskBlacklist bl d = d := by
  rw [maskBlacklist_eq_map]
  apply map_bl_id
  intro kv hm
  cases hb : listHas bl kv.1
  · rfl
  · have hmem : kv.1 ∈ bl := (listHas_iff_mem bl kv.1).mp hb
    exact absurd (hasKey_of_mem hm) (by simp [h kv.1 hmem])

theorem lookup_maskInvoiceObj (kvs : List (String × JVal)) (k : String) :
    lookup (maskInvoiceObj kvs) k
      = (lookup kvs k).map (fun v => if truthy v then blk else v) := by
  induction kvs with
  | nil => simp [maskInvoiceObj, lookup]
  | cons kv d ih =>
    rw [maskInvoiceObj_cons]
    by_cases hp : kv.1 = k
    · subst hp
      cases ht : truthy kv.2 <;> simp only [lookup] <;> simp [ht]
    · cases ht : truthy kv.2 <;> simp only [lookup] <;> simp [hp, ht, ih]

theorem maskInvoiceObj_idem (kvs : List (String × JVal)) :
    maskInvoiceObj (maskInvoiceObj kvs) = maskInvoiceObj kvs := by
  induction kvs with
  | nil => rfl
  | cons kv d ih =>
    rw [maskInvoiceObj_cons]
    cases ht : truthy kv.2
    · simp only [ht, Bool.false_eq_true, if_false]
      rw [maskInvoiceObj_cons]
      simp [ht, ih]
    · simp only [ht, if_true]
      rw [maskInvoiceObj_cons]
      simp [truthy_blk, ih]

theorem lookup_maskRowObjQA (kvs : List (String × JVal)) (f : String) :
    lookup (maskRowObjQA kvs) f
      = (lookup kvs f).map
          (fun v => if f = "attendee_name" ∨ f = "attendee_email" then v else blk) := by
  induction kvs with
  | nil => simp [maskRowObjQA, lookup]
  | cons kv d ih =>
    rw [maskRowObjQA_cons]
    by_cases hp : kv.1 = f
    · subst hp
      by_cases hg : kv.1 = "attendee_name" ∨ kv.1 = "attendee_email" <;>
        simp only [lookup] <;> simp [hg]
    · by_cases hg : kv.1 = "attendee_name" ∨ kv.1 = "attendee_email" <;>
        simp only [lookup] <;> simp [hp, hg, ih]

theorem maskRowObjQA_idem (kvs : List (String × JVal)) :
    maskRowObjQA (maskRowObjQA kvs) = maskRowObjQA kvs := by
  induction kvs with
  | nil => rfl
  | cons kv d ih =>
    rw [maskRowObjQA_cons]
    by_cases hg : kv.1 = "attendee_name" ∨ kv.1 = "attendee_email"
    · simp only [hg, if_true]
      rw [maskRowObjQA_cons]
      simp [hg, ih]
    · simp only [hg, if_false]
      rw [maskRowObjQA_cons]
      simp [hg, ih]

theorem mapE_ok_mem {f : α → Except Unit β} :
    ∀ {l : List α} {l' : List β}, mapE f l = .ok l' →
      ∀ b ∈ l', ∃ a ∈ l, f a = .ok b := by
  intro l
  induction l with
  | nil =>
    intro l' h b hb
    rw [mapE] at h
    cases h
    simp at hb
  | cons a as ih =>
    intro l' h b hb
    rw [mapE] at h
    cases hfa : f a <;> rw [hfa] at h
    · exact Except.noConfusion h
    · cases hma : mapE f as <;> rw [hma] at h
      · exact Except.noConfusion h
      · cases h
        rcases List.mem_cons.mp hb with hb | hb
        · exact ⟨a, List.mem_cons_self a as, by rw [hfa, hb]⟩
        · obtain ⟨a', ha', hfa'⟩ := ih hma b hb
          exact ⟨a', List.mem_cons_of_mem a ha', hfa'⟩

theorem mapE_ok_forall2 {f : α → Except Unit β} :
    ∀ {l : List α} {l' : List β}, mapE f l = .ok l' →
      List.Forall₂ (fun a b => f a = .ok b) l l' := by
  intro l
  induction l with
  | nil =>
    intro l' h
    rw [mapE] at h
    cases h
    exact List.Forall₂.nil
  | cons a as ih =>
    intro l' h
    rw [mapE] at h
    cases hfa : f a <;> rw [hfa] at h
    · exact Except.noConfusion h
    · cases hma : mapE f as <;> rw [hma] at h
      · exact Except.noConfusion h
      · cases h
        exact List.Forall₂.cons hfa (ih hma)

theorem mapE_idem {f : α → Except Unit α}
    (hf : ∀ a b, f a = .ok b → f b = .ok b) :
    ∀ {l l' : List α}, mapE f l = .ok l' → mapE f l' = .ok l' := by
  intro l
  induction l with
  | nil =>
    intro l' h
    rw [mapE] at h
    cases h
    rfl
  | cons a as ih =>
    intro l' h
    rw [mapE] at h
    cases hfa : f a <;> rw [hfa] at h
    · exact Except.noConfusion h
    · cases hma : mapE f as <;> rw [hma] at h
      · exact Except.noConfusion h
      · cases h
        rw [mapE, hf a _ hfa, ih hma]

theorem maskFieldRow_ok_self {field : String} {row row' : JVal}
    (h : maskFieldRow field row = .ok row') :
    maskFieldRow field row' = .ok row' := by
  rw [maskFieldRow] at h
  cases hc : pyContains row field with
  | error e =>
    rw [hc] at h
    exact Except.noConfusion h
  | ok c =>
    rw [hc] at h
    cases c with
    | false =>
      simp only [Bool.false_eq_true, if_false] at h
      injection h with h1
      subst h1
      rw [maskFieldRow, hc]
      rfl
    | true =>
      simp only [if_true] at h
      cases row
      case obj kvs =>
        simp only [pySetKey] at h
        injection h with h1
        subst h1
        rw [maskFieldRow]
        simp [pyContains, pySetKey, hasKey_setKey_self, setKey_setKey_same]
      all_goals exact Except.noConfusion h

theorem maskFieldInData_ok_self {field : String} {v v' : JVal}
    (h : maskFieldInData field v = .ok v') :
    maskFieldInData field v' = .ok v' := by
  cases v with
  | arr rows =>
    rw [maskFieldInData] at h
    cases hm : mapE (maskFieldRow field) rows <;> rw [hm] at h
    · exact Except.noConfusion h
    · injection h with h1
      subst h1
      have h2 := mapE_idem (fun a b hab => maskFieldRow_ok_self hab) hm
      rw [maskFieldInData, h2]
  | str s =>
    rw [maskFieldInData] at h
    cases hm : mapE (maskFieldRow field)
        (s.toList.map (fun c => .str (String.singleton c))) <;> rw [hm] at h
    · exact Except.noConfusion h
    · injection h with h1
      subst h1
      rw [maskFieldInData, hm]
  | obj kvs =>
    rw [maskFieldInData] at h
    cases hm : mapE (maskFieldRow field) (kvs.map (fun kv => .str kv.1)) <;>
      rw [hm] at h
    · exact Except.noConfusion h
    · injection h with h1
      subst h1
      rw [maskFieldInData, hm]
  | num n =>
    rw [maskFieldInData] at h
    exact Except.noConfusion h
  | bool b =>
    rw [maskFieldInData] at h
    exact Except.noConfusion h

theorem maskRowAllExcept_ok_self {row row' : JVal}
    (h : maskRowAllExcept row = .ok row') :
    maskRowAllExcept row' = .ok row' := by
  cases row with
  | obj kvs =>
    rw [maskRowAllExcept] at h
    injection h with h1
    subst h1
    rw [maskRowAllExcept, maskRowObjQA_idem]
  | str s =>
    rw [maskRowAllExcept] at h
    cases hs : s.isEmpty <;> simp only [hs, Bool.false_eq_true, if_false, if_true] at h
    · exact Except.noConfusion h
    · injection h with h1
      subst h1
      rw [maskRowAllExcept]
      simp [hs]
  | arr xs =>
    rw [maskRowAllExcept] at h
    cases hall : xs.all (fun x =>
        match x with
        | .str t => t == "attendee_name" || t == "attendee_email"
        | _ => false) <;>
      simp only [hall, Bool.false_eq_true, if_false, if_true] at h
    · exact Except.noConfusion h
    · injection h with h1
      subst h1
      rw [maskRowAllExcept]
      simp [hall]
  | num n =>
    rw [maskRowAllExcept] at h
    exact Except.noConfusion h
  | bool b =>
    rw [maskRowAllExcept] at h
    exact Except.noConfusion h

theorem maskDataQA_ok_self {v v' : JVal} (h : maskDataQA v = .ok v') :
    maskDataQA v' = .ok v' := by
  cases v with
  | arr rows =>
    rw [maskDataQA] at h
    cases hm : mapE maskRowAllExcept rows <;> rw [hm] at h
    · exact Except.noConfusion h
    · injection h with h1
      subst h1
      have h2 := mapE_idem (fun a b hab => maskRowAllExcept_ok_self hab) hm
      rw [maskDataQA, h2]
  | str s =>
    rw [maskDataQA] at h
    cases hs : s.isEmpty <;> simp only [hs, Bool.false_eq_true, if_false, if_true] at h
    · exact Except.noConfusion h
    · injection h with h1
      subst h1
      rw [maskDataQA]
      simp [hs]
  | obj kvs =>
    rw [maskDataQA] at h
    cases hall : kvs.all (fun kv => kv.1 == "") <;>
      simp only [hall, Bool.false_eq_true, if_false, if_true] at h
    · exact Except.noConfusion h
    · injection h with h1
      subst h1
      rw [maskDataQA]
      simp [hall]
  | num n =>
    rw [maskDataQA] at h
    exact Except.noConfusion h
  | bool b =>
    rw [maskDataQA] at h
    exact Except.noConfusion h

theorem maskInvoiceData_ok_self {v v' : JVal} (h : maskInvoiceData v = .ok v') :
    maskInvoiceData v' = .ok v' := by
  cases v with
  | obj kvs =>
    rw [maskInvoiceData] at h
    injection h with h1
    subst h1
    rw [maskInvoiceData, maskInvoiceObj_idem]
  | str s =>
    rw [maskInvoiceData] at h
    cases hs : s.isEmpty <;> simp only [hs, Bool.false_eq_true, if_false, if_true] at h
    · exact Except.noConfusion h
    · injection h with h1
      subst h1
      rw [maskInvoiceData]
      simp [hs]
  | arr xs =>
    rw [maskInvoiceData] at h
    cases hs : xs.isEmpty <;> simp only [hs, Bool.false_eq_true, if_false, if_true] at h
    · exact Except.noConfusion h
    · injection h with h1
      subst h1
      rw [maskInvoiceData]
      simp [hs]
  | num n =>
    rw [maskInvoiceData] at h
    exact Except.noConfusion h
  | bool b =>
    rw [maskInvoiceData] at h
    exact Except.noConfusion h

theorem shred_log_fields_some {le : LogEntry} {d : Payload} (hd : le.data = some d)
    (bl wl : Option (List String)) :
    shred_log_fields le bl wl
      = .ok { le with
          data := some (if optListTruthy wl then maskWhitelist (wl.getD []) d
            else if optListTruthy bl then maskBlacklist (bl.getD []) d else d),
          shredded := true } := by
  rw [shred_log_fields, hd]

theorem shred_log_fields_ok {le le' : LogEntry} {bl wl : Option (List String)}
    (h : shred_log_fields le bl wl = .ok le') :
    le'.action_type = le.action_type ∧ le'.shredded = true := by
  cases hd : le.data with
  | none =>
    rw [shred_log_fields, hd] at h
    exact Except.noConfusion h
  | some d =>
    rw [shred_log_fields_some hd bl wl] at h
    injection h with h1
    subst h1
    exact ⟨rfl, rfl⟩

theorem shred_log_fields_ok_self {le le' : LogEntry} {bl wl : Option (List String)}
    (h : shred_log_fields le bl wl = .ok le') :
    shred_log_fields le' bl wl = .ok le' := by
  cases hd : le.data with
  | none =>
    rw [shred_log_fields, hd] at h
    exact Except.noConfusion h
  | some d =>
    rw [shred_log_fields_some hd bl wl] at h
    injection h with h1
    subst h1
    rw [shred_log_fields_some rfl bl wl]
    cases hwl : optListTruthy wl
    · cases hbl : optListTruthy bl
      · simp [hwl, hbl]
      · simp [hwl, hbl, maskBlacklist_idem]
    · simp [hwl, maskWhitelist_idem]

theorem emailModifiedEntry_none_key {le : LogEntry} {d : Payload}
    (hd : le.data = some d) (hk : lookup d "data" = none) :
    emailModifiedEntry le = .ok le := by
  simp only [emailModifiedEntry, hd, hk]

theorem emailModifiedEntry_some_key {le : LogEntry} {d : Payload} {v v' : JVal}
    (hd : le.data = some d) (hk : lookup d "data" = some v)
    (hm : maskFieldInData "attendee_email" v = .ok v') :
    emailModifiedEntry le
      = .ok { le with data := some (setKey d "data" v'), shredded := true } := by
  simp only [emailModifiedEntry, hd, hk, hm]

theorem nameModifiedEntry_none_key {le : LogEntry} {d : Payload}
    (hd : le.data = some d) (hk : lookup d "data" = none) :
    nameModifiedEntry le = .ok le := by
  simp only [nameModifiedEntry, hd, hk]

theorem nameModifiedEntry_some_key {le : LogEntry} {d : Payload} {v v' : JVal}
    (hd : le.data = some d) (hk : lookup d "data" = some v)
    (hm : maskFieldInData "attendee_name" v = .ok v') :
    nameModifiedEntry le
      = .ok { le with data := some (setKey d "data" v'), shredded := true } := by
  simp only [nameModifiedEntry, hd, hk, hm]

theorem qaModifiedEntry_none_key {le : LogEntry} {d : Payload}
    (hd : le.data = some d) (hk : lookup d "data" = none) :
    qaModifiedEntry le = .ok le := by
  simp only [qaModifiedEntry, hd, hk]

theorem qaModifiedEntry_some_key {le : LogEntry} {d : Payload} {v v' : JVal}
    (hd : le.data = some d) (hk : lookup d "data" = some v)
    (hm : maskDataQA v = .ok v') :
    qaModifiedEntry le
      = .ok { le with data := some (setKey d "data" v'), shredded := true } := by
  simp only [qaModifiedEntry, hd, hk, hm]

theorem invoiceModifiedEntry_none_key {le : LogEntry} {d : Payload}
    (hd : le.data = some d) (hk : lookup d "invoice_data" = none) :
    invoiceModifiedEntry le = .ok le := by
  simp only [invoiceModifiedEntry, hd, hk]

theorem invoiceModifiedEntry_bool {le : LogEntry} {d : Payload} {v : JVal}
    (hd : le.data = some d) (hk : lookup d "invoice_data" = some v)
    (hb : v.isBool = true) :
    invoiceModifiedEntry le = .ok le := by
  simp only [invoiceModifiedEntry, hd, hk, hb, if_true]

theorem invoiceModifiedEntry_mask {le : LogEntry} {d : Payload} {v v' : JVal}
    (hd : le.data = some d) (hk : lookup d "invoice_data" = some v)
    (hb : v.isBool = false) (hm : maskInvoiceData v = .ok v') :
    invoiceModifiedEntry le
      = .ok { le with data := some (setKey d "invoice_data" v'), shredded := true } := by
  simp only [invoiceModifiedEntry, hd, hk, hb, Bool.false_eq_true, if_false, hm]

theorem emailModifiedEntry_ok {le le' : LogEntry}
    (h : emailModifiedEntry le = .ok le') :
    le'.action_type = le.action_type ∧
    (∀ d', le'.data = some d' → hasKey d' "data" = true → le'.shredded = true) := by
  cases hd : le.data with
  | none =>
    simp only [emailModifiedEntry, hd] at h
    exact Except.noConfusion h
  | some d =>
    simp only [emailModifiedEntry, hd] at h
    cases hk : lookup d "data" with
    | none =>
      simp only [hk] at h
      injection h with h1
      subst h1
      refine ⟨rfl, ?_⟩
      intro d' hd' hhk
      rw [hd] at hd'
      injection hd' with h2
      subst h2
      obtain ⟨v, hv⟩ := lookup_isSome_of_hasKey hhk
      rw [hv] at hk
      exact Option.noConfusion hk
    | some v =>
      simp only [hk] at h
      cases hm : maskFieldInData "attendee_email" v
      · simp only [hm] at h
        exact Except.noConfusion h
      · simp only [hm] at h
        injection h with h1
        subst h1
        exact ⟨rfl, fun _ _ _ => rfl⟩

theorem nameModifiedEntry_ok {le le' : LogEntry}
    (h : nameModifiedEntry le = .ok le') :
    le'.action_type = le.action_type ∧
    (∀ d', le'.data = some d' → hasKey d' "data" = true → le'.shredded = true) := by
  cases hd : le.data with
  | none =>
    simp only [nameModifiedEntry, hd] at h
    exact Except.noConfusion h
  | some d =>
    simp only [nameModifiedEntry, hd] at h
    cases hk : lookup d "data" with
    | none =>
      simp only [hk] at h
      injection h with h1
      subst h1
      refine ⟨rfl, ?_⟩
      intro d' hd' hhk
      rw [hd] at hd'
      injection hd' with h2
      subst h2
      obtain ⟨v, hv⟩ := lookup_isSome_of_hasKey hhk
      rw [hv] at hk
      exact Option.noConfusion hk
    | some v =>
      simp only [hk] at h
      cases hm : maskFieldInData "attendee_name" v
      · simp only [hm] at h
        exact Except.noConfusion h
      · simp only [hm] at h
        injection h with h1
        subst h1
        exact ⟨rfl, fun _ _ _ => rfl⟩

theorem qaModifiedEntry_ok {le le' : LogEntry}
    (h : qaModifiedEntry le = .ok le') :
    le'.action_type = le.action_type ∧
    (∀ d', le'.data = some d' → hasKey d' "data" = true → le'.shredded = true) := by
  cases hd : le.data with
  | none =>
    simp only [qaModifiedEntry, hd] at h
    exact Except.noConfusion h
  | some d =>
    simp only [qaModifiedEntry, hd] at h
    cases hk : lookup d "data" with
    | none =>
      simp only [hk] at h
      injection h with h1
      subst h1
      refine ⟨rfl, ?_⟩
      intro d' hd' hhk
      rw [hd] at hd'
      injection hd' with h2
      subst h2
      obtain ⟨v, hv⟩ := lookup_isSome_of_hasKey hhk
      rw [hv] at hk
      exact Option.noConfusion hk
    | some v =>
      simp only [hk] at h
      cases hm : maskDataQA v
      · simp only [hm] at h
        exact Except.noConfusion h
      · simp only [hm] at h
        injection h with h1
        subst h1
        exact ⟨rfl, fun _ _ _ => rfl⟩

theorem invoiceModifiedEntry_ok {le le' : LogEntry}
    (h : invoiceModifiedEntry le = .ok le') :
    le'.action_type = le.action_type ∧
    (∀ d' v, le'.data = some d' → lookup d' "invoice_data" = some v →
      v.isBool = false → le'.shredded = true) := by
  cases hd : le.data with
  | none =>
    simp only [invoiceModifiedEntry, hd] at h
    exact Except.noConfusion h
  | some d =>
    simp only [invoiceModifiedEntry, hd] at h
    cases hk : lookup d "invoice_data" with
    | none =>
      simp only [hk] at h
      injection h with h1
      subst h1
      refine ⟨rfl, ?_⟩
      intro d' v hd' hk' hb
      rw [hd] at hd'
      injection hd' with h2
      subst h2
      rw [hk'] at hk
      exact Option.noConfusion hk
    | some v0 =>
      simp only [hk] at h
      cases hb0 : v0.isBool
      · simp only [hb0, Bool.false_eq_true, if_false] at h
        cases hm : maskInvoiceData v0
        · simp only [hm] at h
          exact Except.noConfusion h
        · simp only [hm] at h
          injection h with h1
          subst h1
          exact ⟨rfl, fun _ _ _ _ _ => rfl⟩
      · simp only [hb0, if_true] at h
        injection h with h1
        subst h1
        refine ⟨rfl, ?_⟩
        intro d' v hd' hk' hb
        rw [hd] at hd'
        injection hd' with h2
        subst h2
        rw [hk'] at hk
        injection hk with h3
        subst h3
        rw [hb] at hb0
        exact Bool.noConfusion hb0

theorem modifiedGuard_eq_true {le : LogEntry} (h : modifiedGuard le = true) :
    le.action_type = "pretix.event.order.modified" ∧ ∃ d, le.data = some d := by
  have h' : le.action_type = "pretix.event.order.modified" ∧ le.data.isSome = true := by
    simpa [modifiedGuard] using h
  refine ⟨h'.1, ?_⟩
  cases hd : le.data
  · rw [hd] at h'
    simp at h'
  · exact ⟨_, rfl⟩

theorem strContains_modified_email :
    strContains "pretix.event.order.modified" "order.email" = false := by decide

theorem strContains_contact_email :
    strContains "pretix.event.order.contact.changed" "order.email" = false := by decide

/-- Claim C1 (counterexample): for `evDates` — `date_from` 10 days and
`date_to` 90 days before time 0, not live — the claim demands a reason,
because `max(date_from, date_to)` is only 10 days old; but the code
compares `event.date_to or event.date_from`, which is `date_to`, and
returns no reason. -/
theorem c1_counterexample :
    specC1ReasonRequired evDates 0 ∧ shred_constraints evDates 0 = .ok none := by
  constructor
  · exact Or.inl ⟨-864000, by decide, by decide⟩
  · rfl

/-- Claim C1 (amended): with at least one date set, `shred_constraints`
returns no reason exactly when the reference date — `date_to` when set,
else `date_from` — lies at least 60 days before evaluation time and the
event is not live, and returns some reason exactly when the reference
date is strictly inside the 60-day window or the event is live. -/
theorem c1_amended (e : Event) (t d : Int)
    (h : e.date_to.orElse (fun _ => e.date_from) = some d) :
    (shred_constraints e t = .ok none ↔
      (d ≤ t - 60 * daySeconds ∧ e.live = false)) ∧
    ((∃ r, shred_constraints e t = .ok (some r)) ↔
      (t - 60 * daySeconds < d ∨ e.live = true)) := by
  simp only [shred_constraints, h]
  by_cases hgt : d > t - 60 * daySeconds
  · rw [if_pos hgt]
    constructor
    · constructor
      · intro hc
        exact absurd hc (by simp)
      · rintro ⟨hle, _⟩
        exact absurd hgt (not_lt.mpr hle)
    · constructor
      · intro _
        exact Or.inl hgt
      · intro _
        exact ⟨reason60, rfl⟩
  · rw [if_neg hgt]
    cases hl : e.live
    · simp only [Bool.false_eq_true, if_false]
      constructor
      · constructor
        · intro _
          exact ⟨not_lt.mp hgt, trivial⟩
        · intro _
          trivial
      · constructor
        · rintro ⟨r, hr⟩
          exact absurd hr (by simp)
        · intro hc
          rcases hc with hc | hc
          · exact absurd hc hgt
          · exact hc.elim
    · rw [if_pos rfl]
      constructor
      · constructor
        · intro hc
          exact absurd hc (by simp)
        · rintro ⟨_, hfalse⟩
          exact Bool.noConfusion hfalse
      · constructor
        · intro _
          exact Or.inr rfl
        · intro _
          exact ⟨reasonOffline, rfl⟩

/-- Claim C1 (witness): a live event dated now gets a reason; an offline
event whose date is 90 days old gets none. -/
theorem c1_amended_witness :
    (∃ r, shred_constraints evLiveNow 0 = .ok (some r)) ∧
    shred_constraints evOldOffline 0 = .ok none := by
  constructor
  · exact (c1_amended evLiveNow 0 0 rfl).2.mpr (Or.inr rfl)
  · exact (c1_amended evOldOffline 0 (-7776000) rfl).1.mpr
      ⟨by norm_num [daySeconds], rfl⟩

/-- Claim C3 (counterexample): a live event whose single date equals the
evaluation time gets the sixty-days reason, not the shop-offline reason —
the date rule is checked first, so "regardless of the event's dates"
fails. -/
theorem c3_counterexample :
    evLiveNow.live = true ∧
    shred_constraints evLiveNow 0 = .ok (some reason60) ∧
    reason60 ≠ reasonOffline := by
  refine ⟨rfl, rfl, ?_⟩
  decide

/-- Claim C3 (amended): a live event receives the shop-offline reason
exactly when its reference date (`date_to` if set, else `date_from`) is
at least 60 days old; a live event inside the window receives the
sixty-days reason instead; an event whose reference date is at least 60
days old and that is not live receives none. -/
theorem c3_amended (e : Event) (t d : Int)
    (h : e.date_to.orElse (fun _ => e.date_from) = some d) :
    (e.live = true → d ≤ t - 60 * daySeconds →
      shred_constraints e t = .ok (some reasonOffline)) ∧
    (e.live = true → d > t - 60 * daySeconds →
      shred_constraints e t = .ok (some reason60)) ∧
    (e.live = false → d ≤ t - 60 * daySeconds →
      shred_constraints e t = .ok none) := by
  refine ⟨?_, ?_, ?_⟩ <;> intro hl hd <;> simp only [shred_constraints, h]
  · rw [if_neg (by omega), if_pos hl]
  · rw [if_pos (by omega)]
  · rw [if_neg (by omega), if_neg (by simp [hl])]

/-- Claim C3 (witness): live plus 90 days old gives the shop-offline
reason; live plus recent gives the sixty-days reason; offline plus 90
days old gives none. -/
theorem c3_amended_witness :
    shred_constraints evLiveOld 0 = .ok (some reasonOffline) ∧
    shred_constraints evLiveNow 0 = .ok (some reason60) ∧
    shred_constraints evOldOffline 0 = .ok none := by
  refine ⟨?_, ?_, ?_⟩
  · exact (c3_amended evLiveOld 0 (-7776000) rfl).1 rfl (by norm_num [daySeconds])
  · exact (c3_amended evLiveNow 0 0 rfl).2.1 rfl (by norm_num [daySeconds])
  · exact (c3_amended evOldOffline 0 (-7776000) rfl).2.2 rfl (by norm_num [daySeconds])

/-- Claim C8: the redaction primitive, given a payload and exactly one of
a blacklist or a whitelist. A nonempty blacklist masks each listed field
that is present with the fixed marker, leaves absent listed fields absent
(no error), and leaves unlisted fields unchanged; a nonempty whitelist
masks every present field not on the allow-list and keeps allow-listed
fields; in both cases the re-encoded payload and `shredded = true` are
written together into the one resulting entry. -/
theorem c8_shred_log_fields_spec :
    (∀ (le : LogEntry) (d : Payload) (bl : List String),
      le.data = some d → bl ≠ [] →
      shred_log_fields le (some bl) none
          = .ok { le with data := some (maskBlacklist bl d), shredded := true } ∧
      (∀ k v, listHas bl k = true → lookup d k = some v →
        lookup (maskBlacklist bl d) k = some blk) ∧
      (∀ k, listHas bl k = true → hasKey d k = false →
        lookup (maskBlacklist bl d) k = none) ∧
      (∀ k, listHas bl k = false →
        lookup (maskBlacklist bl d) k = lookup d k)) ∧
    (∀ (le : LogEntry) (d : Payload) (wl : List String),
      le.data = some d → wl ≠ [] →
      shred_log_fields le none (some wl)
          = .ok { le with data := some (maskWhitelist wl d), shredded := true } ∧
      (∀ k v, listHas wl k = false → lookup d k = some v →
        lookup (maskWhitelist wl d) k = some blk) ∧
      (∀ k, listHas wl k = true →
        lookup (maskWhitelist wl d) k = lookup d k)) := by
  constructor
  · intro le d bl hd hbl
    refine ⟨?_, ?_, ?_, ?_⟩
    · rw [shred_log_fields_some hd (some bl) none]
      have h1 : optListTruthy (none : Option (List String)) = false := rfl
      have h2 : optListTruthy (some bl) = true := by
        cases bl
        · exact absurd rfl hbl
        · rfl
      simp [h1, h2]
    · intro k v hk hv
      rw [lookup_maskBlacklist, hv]
      simp [hk]
    · intro k hk hnk
      rw [lookup_maskBlacklist, (lookup_eq_none_iff d k).mpr hnk]
      rfl
    · intro k hk
      rw [lookup_maskBlacklist]
      cases hv : lookup d k <;> simp [hk]
  · intro le d wl hd hwl
    refine ⟨?_, ?_, ?_⟩
    · rw [shred_log_fields_some hd none (some wl)]
      have h2 : optListTruthy (some wl) = true := by
        cases wl
        · exact absurd rfl hwl
        · rfl
      simp [h2]
    · intro k v hk hv
      rw [lookup_maskWhitelist, hv]
      simp [hk]
    · intro k hk
      rw [lookup_maskWhitelist]
      cases hv : lookup d k <;> simp [hk]

/-- Claim C8 (witness): the primitive applied to a concrete three-field
payload, once with a blacklist and once with a whitelist. -/
theorem c8_witness :
    shred_log_fields leWfields (some ["old_email", "new_email"]) none
        = .ok { leWfields with
            data := some (maskBlacklist ["old_email", "new_email"] dWfields),
            shredded := true } ∧
    lookup (maskBlacklist ["old_email", "new_email"] dWfields) "old_email"
        = some blk ∧
    lookup (maskBlacklist ["old_email", "new_email"] dWfields) "new_email"
        = none ∧
    lookup (maskBlacklist ["old_email", "new_email"] dWfields) "note"
        = some (.str "keep") ∧
    shred_log_fields leWfields none (some ["note"])
        = .ok { leWfields with
            data := some (maskWhitelist ["note"] dWfields),
            shredded := true } ∧
    lookup (maskWhitelist ["note"] dWfields) "old_email" = some blk ∧
    lookup (maskWhitelist ["note"] dWfields) "note" = some (.str "keep") := by
  have hb := c8_shred_log_fields_spec.1 leWfields dWfields
    ["old_email", "new_email"] rfl (by simp)
  have hw := c8_shred_log_fields_spec.2 leWfields dWfields ["note"] rfl (by simp)
  refine ⟨hb.1, hb.2.1 "old_email" (.str "a@b.c") rfl rfl,
    hb.2.2.1 "new_email" rfl rfl, ?_, hw.1,
    hw.2.1 "old_email" (.str "a@b.c") rfl rfl, ?_⟩
  · rw [hb.2.2.2 "note" rfl]
    rfl
  · rw [hw.2.2 "note" rfl]
    rfl

/-- Claim C10 (implicit): `shred_log_fields` sets `shredded = true` and
rewrites the payload even when nothing is masked — with no effective
blacklist or whitelist (both absent or both empty), or with a blacklist
none of whose fields occurs in the payload — so an entry can end up with
`shredded = true` and its payload content unchanged. -/
theorem c10_shred_without_mask :
    (∀ (le : LogEntry) (d : Payload), le.data = some d →
      shred_log_fields le none none
        = .ok { le with data := some d, shredded := true }) ∧
    (∀ (le : LogEntry) (d : Payload), le.data = some d →
      shred_log_fields le (some []) (some [])
        = .ok { le with data := some d, shredded := true }) ∧
    (∀ (le : LogEntry) (d : Payload) (bl : List String), le.data = some d →
      (∀ f ∈ bl, hasKey d f = false) →
      shred_log_fields le (some bl) none
        = .ok { le with data := some d, shredded := true }) := by
  refine ⟨?_, ?_, ?_⟩
  · intro le d hd
    rw [shred_log_fields_some hd none none]
    rfl
  · intro le d hd
    rw [shred_log_fields_some hd (some []) (some [])]
    rfl
  · intro le d bl hd hnone
    rw [shred_log_fields_some hd (some bl) none]
    have h1 : optListTruthy (none : Option (List String)) = false := rfl
    cases hbl : optListTruthy (some bl)
    · simp [h1, hbl]
    · simp [h1, hbl, maskBlacklist_not_present hnone]

/-- Claim C10 (witness): a concrete entry is marked shredded with its
payload untouched under an absent rule, empty rules, and a blacklist of
absent fields. -/
theorem c10_witness :
    shred_log_fields leWfields none none
      = .ok { leWfields with data := some dWfields, shredded := true } ∧
    shred_log_fields leWfields (some []) (some [])
      = .ok { leWfields with data := some dWfields, shredded := true } ∧
    shred_log_fields leWfields (some ["recipient", "message"]) none
      = .ok { leWfields with data := some dWfields, shredded := true } := by
  refine ⟨c10_shred_without_mask.1 leWfields dWfields rfl,
    c10_shred_without_mask.2.1 leWfields dWfields rfl,
    c10_shred_without_mask.2.2 leWfields dWfields ["recipient", "message"] rfl ?_⟩
  intro f hf
  simp at hf
  rcases hf with rfl | rfl <;> rfl

/-- Claim C4: every masking rule used by this core is idempotent —
blacklist and whitelist masking (also at the level of the full redaction
primitive, payload plus flag), the per-row field masking of the Email and
AttendeeName shredders, the truthy-field masking of the InvoiceAddress
shredder, and the mask-all-but-protected rule of the QuestionAnswer
shredder: a second application returns the first result unchanged. -/
theorem c4_masking_idempotent :
    (∀ (bl : List String) (d : Payload),
      maskBlacklist bl (maskBlacklist bl d) = maskBlacklist bl d) ∧
    (∀ (wl : List String) (d : Payload),
      maskWhitelist wl (maskWhitelist wl d) = maskWhitelist wl d) ∧
    (∀ (le le' : LogEntry) (bl wl : Option (List String)),
      shred_log_fields le bl wl = .ok le' →
      shred_log_fields le' bl wl = .ok le') ∧
    (∀ (field : String) (v v' : JVal),
      maskFieldInData field v = .ok v' → maskFieldInData field v' = .ok v') ∧
    (∀ v v' : JVal, maskInvoiceData v = .ok v' → maskInvoiceData v' = .ok v') ∧
    (∀ v v' : JVal, maskDataQA v = .ok v' → maskDataQA v' = .ok v') :=
  ⟨maskBlacklist_idem, maskWhitelist_idem,
   fun _ _ _ _ h => shred_log_fields_ok_self h,
   fun _ _ _ h => maskFieldInData_ok_self h,
   fun _ _ h => maskInvoiceData_ok_self h,
   fun _ _ h => maskDataQA_ok_self h⟩

/-- Claim C4 (witness): each masking rule applied twice at a concrete
already-masked input returns it unchanged. -/
theorem c4_witness :
    maskBlacklist ["old_email"] (maskBlacklist ["old_email"] dWfields)
      = maskBlacklist ["old_email"] dWfields ∧
    maskWhitelist ["note"] (maskWhitelist ["note"] dWfields)
      = maskWhitelist ["note"] dWfields ∧
    shred_log_fields
        { leWfields with
          data := some (maskBlacklist ["old_email"] dWfields),
          shredded := true } (some ["old_email"]) none
      = .ok { leWfields with
          data := some (maskBlacklist ["old_email"] dWfields),
          shredded := true } ∧
    maskFieldInData "attendee_email"
        (.arr [.obj [("attendee_name", .str "Jane Doe"), ("attendee_email", blk)]])
      = .ok (.arr [.obj [("attendee_name", .str "Jane Doe"),
                         ("attendee_email", blk)]]) ∧
    maskInvoiceData (.obj [("company", blk), ("vat_id", .str "")])
      = .ok (.obj [("company", blk), ("vat_id", .str "")]) ∧
    maskDataQA (.arr [.obj [("attendee_name", .str "Jane Doe"), ("q1", blk)]])
      = .ok (.arr [.obj [("attendee_name", .str "Jane Doe"), ("q1", blk)]]) :=
  ⟨c4_masking_idempotent.1 ["old_email"] dWfields,
   c4_masking_idempotent.2.1 ["note"] dWfields,
   c4_masking_idempotent.2.2.1 leWfields _ (some ["old_email"]) none rfl,
   c4_masking_idempotent.2.2.2.1 "attendee_email" (.arr [.obj rowJane]) _ rfl,
   c4_masking_idempotent.2.2.2.2.1 (.obj kvsAcme) _ rfl,
   c4_masking_idempotent.2.2.2.2.2
     (.arr [.obj [("attendee_name", .str "Jane Doe"), ("q1", .str "blue")]]) _ rfl⟩

/-- Claim C6: QuestionAnswerShredder's order-modified masking replaces
every field of a mapping row except `attendee_name` and `attendee_email`
with the marker and keeps those two unchanged; on a data list of mapping
rows it masks exactly row by row; and the concrete Jane Doe row holding
only the two protected fields passes through the whole per-entry step
with its payload unchanged (only `shredded` is set). -/
theorem c6_qa_protects_name_email :
    (∀ (kvs : List (String × JVal)) (f : String),
      lookup (maskRowObjQA kvs) f
        = (lookup kvs f).map
            (fun v => if f = "attendee_name" ∨ f = "attendee_email" then v
                      else blk)) ∧
    (∀ rows : List (List (String × JVal)),
      maskDataQA (.arr (rows.map JVal.obj))
        = .ok (.arr (rows.map (fun kvs => JVal.obj (maskRowObjQA kvs))))) ∧
    qaModifiedEntry leJane = .ok { leJane with shredded := true } := by
  refine ⟨lookup_maskRowObjQA, ?_, ?_⟩
  · intro rows
    have hmap : ∀ rs : List (List (String × JVal)),
        mapE maskRowAllExcept (rs.map JVal.obj)
          = .ok (rs.map (fun kvs => JVal.obj (maskRowObjQA kvs))) := by
      intro rs
      induction rs with
      | nil => rfl
      | cons r rs ih =>
        simp only [List.map_cons, mapE, maskRowAllExcept, ih]
    rw [maskDataQA, hmap rows]
  · rfl

/-- Claim C7 (counterexample): for a payload with `invoice_data = 5` —
present and not a boolean — the code does not mask truthy fields and
leave the rest: iterating the integer raises TypeError, so the per-entry
step fails instead of completing. -/
theorem c7_counterexample :
    lookup [("invoice_data", JVal.num 5)] "invoice_data" = some (.num 5) ∧
    (JVal.num 5).isBool = false ∧
    invoiceModifiedEntry leNum5 = .error () :=
  ⟨rfl, rfl, rfl⟩

/-- Claim C7 (amended): when `invoice_data` is present and is a mapping
(not a boolean), the InvoiceAddress step replaces exactly the
truthy-valued fields of the mapping with the marker, leaves falsy values
untouched, and writes the payload together with `shredded = true`; the
Acme scenario masks `company` and keeps the empty `vat_id`. -/
theorem c7_invoice_truthy_mask :
    (∀ (kvs : List (String × JVal)) (k : String),
      lookup (maskInvoiceObj kvs) k
        = (lookup kvs k).map (fun v => if truthy v then blk else v)) ∧
    (∀ (le : LogEntry) (d : Payload) (kvs : List (String × JVal)),
      le.data = some d → lookup d "invoice_data" = some (.obj kvs) →
      invoiceModifiedEntry le
        = .ok { le with
            data := some (setKey d "invoice_data" (.obj (maskInvoiceObj kvs))),
            shredded := true }) ∧
    maskInvoiceData (.obj kvsAcme)
      = .ok (.obj [("company", blk), ("vat_id", .str "")]) := by
  refine ⟨lookup_maskInvoiceObj, ?_, rfl⟩
  intro le d kvs hd hk
  exact invoiceModifiedEntry_mask hd hk rfl rfl

/-- Claim C7 (witness): the per-entry step at the concrete witness entry
masks the Acme invoice mapping in place. -/
theorem c7_witness :
    invoiceModifiedEntry leWmod
      = .ok { leWmod with
          data := some (setKey dWmod "invoice_data" (.obj (maskInvoiceObj kvsAcme))),
          shredded := true } :=
  c7_invoice_truthy_mask.2.1 leWmod dWmod kvsAcme rfl rfl

theorem maskFieldRow_frame {field : String} {row row' : JVal}
    (h : maskFieldRow field row = .ok row') (f : String) (hf : f ≠ field) :
    rowLookup row' f = rowLookup row f := by
  rw [maskFieldRow] at h
  cases hc : pyContains row field with
  | error e =>
    rw [hc] at h
    exact Except.noConfusion h
  | ok c =>
    rw [hc] at h
    cases c with
    | false =>
      simp only [Bool.false_eq_true, if_false] at h
      injection h with h1
      subst h1
      rfl
    | true =>
      simp only [if_true] at h
      cases row
      case obj kvs =>
        simp only [pySetKey] at h
        injection h with h1
        subst h1
        simp only [rowLookup]
        exact lookup_setKey_ne kvs blk hf
      all_goals exact Except.noConfusion h

theorem maskFieldInData_arr_frame {field : String} {rows : List JVal} {v' : JVal}
    (h : maskFieldInData field (.arr rows) = .ok v') :
    ∃ rows', v' = .arr rows' ∧
      List.Forall₂ (fun r r' => ∀ f, f ≠ field → rowLookup r' f = rowLookup r f)
        rows rows' := by
  rw [maskFieldInData] at h
  cases hm : mapE (maskFieldRow field) rows <;> rw [hm] at h
  · exact Except.noConfusion h
  · injection h with h1
    subst h1
    exact ⟨_, rfl, (mapE_ok_forall2 hm).imp (fun _ _ hab f hf => maskFieldRow_frame hab f hf)⟩

theorem maskRowAllExcept_frame {row row' : JVal}
    (h : maskRowAllExcept row = .ok row') :
    rowLookup row' "attendee_name" = rowLookup row "attendee_name" ∧
    rowLookup row' "attendee_email" = rowLookup row "attendee_email" := by
  cases row with
  | obj kvs =>
    rw [maskRowAllExcept] at h
    injection h with h1
    subst h1
    constructor
    · simp only [rowLookup]
      rw [lookup_maskRowObjQA]
      cases hl : lookup kvs "attendee_name" <;> simp
    · simp only [rowLookup]
      rw [lookup_maskRowObjQA]
      cases hl : lookup kvs "attendee_email" <;> simp
  | str s =>
    rw [maskRowAllExcept] at h
    cases hs : s.isEmpty <;> simp only [hs, Bool.false_eq_true, if_false, if_true] at h
    · exact Except.noConfusion h
    · injection h with h1
      subst h1
      exact ⟨rfl, rfl⟩
  | arr xs =>
    rw [maskRowAllExcept] at h
    cases hall : xs.all (fun x =>
        match x with
        | .str t => t == "attendee_name" || t == "attendee_email"
        | _ => false) <;>
      simp only [hall, Bool.false_eq_true, if_false, if_true] at h
    · exact Except.noConfusion h
    · injection h with h1
      subst h1
      exact ⟨rfl, rfl⟩
  | num n =>
    rw [maskRowAllExcept] at h
    exact Except.noConfusion h
  | bool b =>
    rw [maskRowAllExcept] at h
    exact Except.noConfusion h

theorem maskDataQA_arr_frame {rows : List JVal} {v' : JVal}
    (h : maskDataQA (.arr rows) = .ok v') :
    ∃ rows', v' = .arr rows' ∧
      List.Forall₂ (fun r r' =>
        rowLookup r' "attendee_name" = rowLookup r "attendee_name" ∧
        rowLookup r' "attendee_email" = rowLookup r "attendee_email") rows rows' := by
  rw [maskDataQA] at h
  cases hm : mapE maskRowAllExcept rows <;> rw [hm] at h
  · exact Except.noConfusion h
  · injection h with h1
    subst h1
    exact ⟨_, rfl, (mapE_ok_forall2 hm).imp (fun _ _ hab => maskRowAllExcept_frame hab)⟩

theorem nameModifiedEntry_frame {le le' : LogEntry} {d d' : Payload}
    (h : nameModifiedEntry le = .ok le') (hd : le.data = some d)
    (hd' : le'.data = some d') :
    (∀ k, k ≠ "data" → lookup d' k = lookup d k) ∧
    (∀ rows, lookup d "data" = some (.arr rows) →
      ∃ rows', lookup d' "data" = some (.arr rows') ∧
        List.Forall₂ (fun r r' => ∀ f, f ≠ "attendee_name" →
          rowLookup r' f = rowLookup r f) rows rows') := by
  cases hk : lookup d "data" with
  | none =>
    rw [nameModifiedEntry_none_key hd hk] at h
    injection h with h1
    subst h1
    rw [hd] at hd'
    injection hd' with h2
    subst h2
    refine ⟨fun _ _ => rfl, fun rows hr => ?_⟩
    exact Option.noConfusion hr
  | some v =>
    cases hm : maskFieldInData "attendee_name" v with
    | error e =>
      exact absurd h (by simp [nameModifiedEntry, hd, hk, hm])
    | ok v' =>
      rw [nameModifiedEntry_some_key hd hk hm] at h
      injection h with h1
      subst h1
      have h2 : some (setKey d "data" v') = some d' := hd'
      injection h2 with h3
      subst h3
      constructor
      · intro k hkk
        exact lookup_setKey_ne d v' hkk
      · intro rows hr
        injection hr with h4
        subst h4
        obtain ⟨rows', hv', hf⟩ := maskFieldInData_arr_frame hm
        subst hv'
        exact ⟨rows', lookup_setKey_self d "data" _, hf⟩

theorem emailModifiedEntry_frame {le le' : LogEntry} {d d' : Payload}
    (h : emailModifiedEntry le = .ok le') (hd : le.data = some d)
    (hd' : le'.data = some d') :
    (∀ k, k ≠ "data" → lookup d' k = lookup d k) ∧
    (∀ rows, lookup d "data" = some (.arr rows) →
      ∃ rows', lookup d' "data" = some (.arr rows') ∧
        List.Forall₂ (fun r r' => ∀ f, f ≠ "attendee_email" →
          rowLookup r' f = rowLookup r f) rows rows') := by
  cases hk : lookup d "data" with
  | none =>
    rw [emailModifiedEntry_none_key hd hk] at h
    injection h with h1
    subst h1
    rw [hd] at hd'
    injection hd' with h2
    subst h2
    refine ⟨fun _ _ => rfl, fun rows hr => ?_⟩
    exact Option.noConfusion hr
  | some v =>
    cases hm : maskFieldInData "attendee_email" v with
    | error e =>
      exact absurd h (by simp [emailModifiedEntry, hd, hk, hm])
    | ok v' =>
      rw [emailModifiedEntry_some_key hd hk hm] at h
      injection h with h1
      subst h1
      have h2 : some (setKey d "data" v') = some d' := hd'
      injection h2 with h3
      subst h3
      constructor
      · intro k hkk
        exact lookup_setKey_ne d v' hkk
      · intro rows hr
        injection hr with h4
        subst h4
        obtain ⟨rows', hv', hf⟩ := maskFieldInData_arr_frame hm
        subst hv'
        exact ⟨rows', lookup_setKey_self d "data" _, hf⟩

theorem qaModifiedEntry_frame {le le' : LogEntry} {d d' : Payload}
    (h : qaModifiedEntry le = .ok le') (hd : le.data = some d)
    (hd' : le'.data = some d') :
    (∀ k, k ≠ "data" → lookup d' k = lookup d k) ∧
    (∀ rows, lookup d "data" = some (.arr rows) →
      ∃ rows', lookup d' "data" = some (.arr rows') ∧
        List.Forall₂ (fun r r' =>
          rowLookup r' "attendee_name" = rowLookup r "attendee_name" ∧
          rowLookup r' "attendee_email" = rowLookup r "attendee_email")
          rows rows') := by
  cases hk : lookup d "data" with
  | none =>
    rw [qaModifiedEntry_none_key hd hk] at h
    injection h with h1
    subst h1
    rw [hd] at hd'
    injection hd' with h2
    subst h2
    refine ⟨fun _ _ => rfl, fun rows hr => ?_⟩
    exact Option.noConfusion hr
  | some v =>
    cases hm : maskDataQA v with
    | error e =>
      exact absurd h (by simp [qaModifiedEntry, hd, hk, hm])
    | ok v' =>
      rw [qaModifiedEntry_some_key hd hk hm] at h
      injection h with h1
      subst h1
      have h2 : some (setKey d "data" v') = some d' := hd'
      injection h2 with h3
      subst h3
      constructor
      · intro k hkk
        exact lookup_setKey_ne d v' hkk
      · intro rows hr
        injection hr with h4
        subst h4
        obtain ⟨rows', hv', hf⟩ := maskDataQA_arr_frame hm
        subst hv'
        exact ⟨rows', lookup_setKey_self d "data" _, hf⟩

theorem invoiceModifiedEntry_frame {le le' : LogEntry} {d d' : Payload}
    (h : invoiceModifiedEntry le = .ok le') (hd : le.data = some d)
    (hd' : le'.data = some d') :
    ∀ k, k ≠ "invoice_data" → lookup d' k = lookup d k := by
  cases hk : lookup d "invoice_data" with
  | none =>
    rw [invoiceModifiedEntry_none_key hd hk] at h
    injection h with h1
    subst h1
    rw [hd] at hd'
    injection hd' with h2
    subst h2
    exact fun _ _ => rfl
  | some v =>
    cases hb : v.isBool
    · cases hm : maskInvoiceData v with
      | error e =>
        exact absurd h (by simp [invoiceModifiedEntry, hd, hk, hb, hm])
      | ok v' =>
        rw [invoiceModifiedEntry_mask hd hk hb hm] at h
        injection h with h1
        subst h1
        have h2 : some (setKey d "invoice_data" v') = some d' := hd'
        injection h2 with h3
        subst h3
        exact fun k hkk => lookup_setKey_ne d v' hkk
    · rw [invoiceModifiedEntry_bool hd hk hb] at h
      injection h with h1
      subst h1
      rw [hd] at hd'
      injection hd' with h2
      subst h2
      exact fun _ _ => rfl

/-- Claim C5: field isolation of the shared order-modified masking. The
AttendeeName step changes nothing outside `attendee_name` row fields:
every other top-level payload field and every other row field keeps its
value; symmetrically the Email step only touches `attendee_email` row
fields, the InvoiceAddress step only the contents of `invoice_data`, the
QuestionAnswer step preserves the `attendee_name` and `attendee_email`
row fields and every top-level field other than `data`, and the email
shredder blacklist masking leaves every unlisted field unchanged. -/
theorem c5_field_isolation :
    (∀ (le le' : LogEntry) (d d' : Payload),
      nameModifiedEntry le = .ok le' → le.data = some d → le'.data = some d' →
      (∀ k, k ≠ "data" → lookup d' k = lookup d k) ∧
      (∀ rows, lookup d "data" = some (.arr rows) →
        ∃ rows', lookup d' "data" = some (.arr rows') ∧
          List.Forall₂ (fun r r' => ∀ f, f ≠ "attendee_name" →
            rowLookup r' f = rowLookup r f) rows rows')) ∧
    (∀ (le le' : LogEntry) (d d' : Payload),
      emailModifiedEntry le = .ok le' → le.data = some d → le'.data = some d' →
      (∀ k, k ≠ "data" → lookup d' k = lookup d k) ∧
      (∀ rows, lookup d "data" = some (.arr rows) →
        ∃ rows', lookup d' "data" = some (.arr rows') ∧
          List.Forall₂ (fun r r' => ∀ f, f ≠ "attendee_email" →
            rowLookup r' f = rowLookup r f) rows rows')) ∧
    (∀ (le le' : LogEntry) (d d' : Payload),
      invoiceModifiedEntry le = .ok le' → le.data = some d → le'.data = some d' →
      ∀ k, k ≠ "invoice_data" → lookup d' k = lookup d k) ∧
    (∀ (le le' : LogEntry) (d d' : Payload),
      qaModifiedEntry le = .ok le' → le.data = some d → le'.data = some d' →
      (∀ k, k ≠ "data" → lookup d' k = lookup d k) ∧
      (∀ rows, lookup d "data" = some (.arr rows) →
        ∃ rows', lookup d' "data" = some (.arr rows') ∧
          List.Forall₂ (fun r r' =>
            rowLookup r' "attendee_name" = rowLookup r "attendee_name" ∧
            rowLookup r' "attendee_email" = rowLookup r "attendee_email")
            rows rows')) ∧
    (∀ (bl : List String) (d : Payload) (k : String), listHas bl k = false →
      lookup (maskBlacklist bl d) k = lookup d k) := by
  refine ⟨?_, ?_, ?_, ?_, ?_⟩
  · intro le le' d d' h hd hd'
    exact nameModifiedEntry_frame h hd hd'
  · intro le le' d d' h hd hd'
    exact emailModifiedEntry_frame h hd hd'
  · intro le le' d d' h hd hd'
    exact invoiceModifiedEntry_frame h hd hd'
  · intro le le' d d' h hd hd'
    exact qaModifiedEntry_frame h hd hd'
  · intro bl d k hk
    rw [lookup_maskBlacklist]
    cases hv : lookup d k <;> simp [hk]

/-- Claim C5 (witness): each masking step applied to the concrete
order-modified witness entry leaves a field it does not own unchanged. -/
theorem c5_witness :
    lookup dWmodName "invoice_data" = lookup dWmod "invoice_data" ∧
    lookup dWmodEmail "invoice_data" = lookup dWmod "invoice_data" ∧
    lookup dWmodInv "data" = lookup dWmod "data" ∧
    lookup dWmodQA "invoice_data" = lookup dWmod "invoice_data" ∧
    lookup (maskBlacklist ["recipient", "message"] dWfields) "note"
      = lookup dWfields "note" := by
  refine ⟨?_, ?_, ?_, ?_, ?_⟩
  · exact (c5_field_isolation.1 leWmod leWmodName dWmod dWmodName rfl rfl rfl).1
      "invoice_data" (by decide)
  · exact (c5_field_isolation.2.1 leWmod leWmodEmail dWmod dWmodEmail rfl rfl rfl).1
      "invoice_data" (by decide)
  · exact c5_field_isolation.2.2.1 leWmod leWmodInv dWmod dWmodInv rfl rfl rfl
      "data" (by decide)
  · exact (c5_field_isolation.2.2.2.1 leWmod leWmodQA dWmod dWmodQA rfl rfl rfl).1
      "invoice_data" (by decide)
  · exact c5_field_isolation.2.2.2.2 ["recipient", "message"] dWfields "note" rfl

/-- Claim C9: `generate_files` of each of the four shredders is
read-only — the state-passing embedding returns the event unchanged,
because the source bodies only query and serialize (no update, delete or
save occurs in them) — and yields a finite list of (filename, MIME type,
content) files: two for the email shredder and one for each other
shredder. -/
theorem c9_generate_files_read_only (e : Event) :
    (generate_files_email e).2 = e ∧ (generate_files_email e).1.length = 2 ∧
    (generate_files_name e).2 = e ∧ (generate_files_name e).1.length = 1 ∧
    (generate_files_invoice e).2 = e ∧ (generate_files_invoice e).1.length = 1 ∧
    (generate_files_qa e).2 = e ∧ (generate_files_qa e).1.length = 1 :=
  ⟨rfl, rfl, rfl, rfl, rfl, rfl, rfl, rfl⟩

theorem modified_pass_fact {f : LogEntry → Except Unit LogEntry}
    (hf : ∀ {a b : LogEntry}, f a = .ok b →
      b.action_type = a.action_type ∧
      (∀ d', b.data = some d' → hasKey d' "data" = true → b.shredded = true))
    {l l' : List LogEntry}
    (h : mapE (fun le => if modifiedGuard le then f le else .ok le) l = .ok l') :
    ∀ le ∈ l', ∀ d, le.action_type = "pretix.event.order.modified" →
      le.data = some d → hasKey d "data" = true → le.shredded = true := by
  intro le hmem d hact hdata hkey
  obtain ⟨a, _, hstep⟩ := mapE_ok_mem h le hmem
  by_cases hg : modifiedGuard a = true
  · rw [if_pos hg] at hstep
    exact (hf hstep).2 d hdata hkey
  · rw [if_neg hg] at hstep
    injection hstep with h1
    subst h1
    exact absurd (by simp [modifiedGuard, hact, hdata]) hg

theorem invoice_pass_fact {l l' : List LogEntry}
    (h : mapE (fun le => if modifiedGuard le then invoiceModifiedEntry le
        else .ok le) l = .ok l') :
    ∀ le ∈ l', ∀ d v, le.action_type = "pretix.event.order.modified" →
      le.data = some d → lookup d "invoice_data" = some v → v.isBool = false →
      le.shredded = true := by
  intro le hmem d v hact hdata hinv hb
  obtain ⟨a, _, hstep⟩ := mapE_ok_mem h le hmem
  by_cases hg : modifiedGuard a = true
  · rw [if_pos hg] at hstep
    exact (invoiceModifiedEntry_ok hstep).2 d v hdata hinv hb
  · rw [if_neg hg] at hstep
    injection hstep with h1
    subst h1
    exact absurd (by simp [modifiedGuard, hact, hdata]) hg

theorem email_pass1_fact {l l' : List LogEntry}
    (h : mapE (fun le => if strContains le.action_type "order.email" then
        shred_log_fields le (some ["recipient", "message"]) none
      else .ok le) l = .ok l') :
    ∀ le ∈ l', strContains le.action_type "order.email" = true →
      le.shredded = true := by
  intro le hmem hc
  obtain ⟨a, _, hstep⟩ := mapE_ok_mem h le hmem
  by_cases hg : strContains a.action_type "order.email" = true
  · rw [if_pos hg] at hstep
    exact (shred_log_fields_ok hstep).2
  · rw [if_neg hg] at hstep
    injection hstep with h1
    subst h1
    exact absurd hc hg

theorem email_pass2_fact {l1 l2 : List LogEntry}
    (h2 : mapE (fun le =>
        if le.action_type == "pretix.event.order.contact.changed" then
          shred_log_fields le (some ["old_email", "new_email"]) none
        else .ok le) l1 = .ok l2) :
    ∀ le ∈ l2, le.action_type = "pretix.event.order.contact.changed" →
      le.shredded = true := by
  intro le hmem hact
  obtain ⟨c, _, hstep⟩ := mapE_ok_mem h2 le hmem
  by_cases hg : (c.action_type == "pretix.event.order.contact.changed") = true
  · rw [if_pos hg] at hstep
    exact (shred_log_fields_ok hstep).2
  · rw [if_neg hg] at hstep
    injection hstep with h1
    subst h1
    exact absurd (by simp [hact]) hg

theorem email_pass2_keeps_contains {l1 l2 : List LogEntry}
    (h1fact : ∀ le ∈ l1, strContains le.action_type "order.email" = true →
      le.shredded = true)
    (h2 : mapE (fun le =>
        if le.action_type == "pretix.event.order.contact.changed" then
          shred_log_fields le (some ["old_email", "new_email"]) none
        else .ok le) l1 = .ok l2) :
    ∀ le ∈ l2, strContains le.action_type "order.email" = true →
      le.shredded = true := by
  intro le hmem hc
  obtain ⟨c, hcmem, hstep⟩ := mapE_ok_mem h2 le hmem
  by_cases hg : (c.action_type == "pretix.event.order.contact.changed") = true
  · rw [if_pos hg] at hstep
    exact (shred_log_fields_ok hstep).2
  · rw [if_neg hg] at hstep
    injection hstep with h1
    subst h1
    exact h1fact c hcmem hc

theorem email_pass3_keeps_contains {l2 l3 : List LogEntry}
    (h2fact : ∀ le ∈ l2, strContains le.action_type "order.email" = true →
      le.shredded = true)
    (h3 : mapE (fun le => if modifiedGuard le then emailModifiedEntry le
        else .ok le) l2 = .ok l3) :
    ∀ le ∈ l3, strContains le.action_type "order.email" = true →
      le.shredded = true := by
  intro le hmem hc
  obtain ⟨b, hbmem, hstep⟩ := mapE_ok_mem h3 le hmem
  by_cases hg : modifiedGuard b = true
  · rw [if_pos hg] at hstep
    have ha := (emailModifiedEntry_ok hstep).1
    have hb := (modifiedGuard_eq_true hg).1
    rw [ha, hb, strContains_modified_email] at hc
    exact Bool.noConfusion hc
  · rw [if_neg hg] at hstep
    injection hstep with h1
    subst h1
    exact h2fact b hbmem hc

theorem email_pass3_keeps_contact {l2 l3 : List LogEntry}
    (h2fact : ∀ le ∈ l2, le.action_type = "pretix.event.order.contact.changed" →
      le.shredded = true)
    (h3 : mapE (fun le => if modifiedGuard le then emailModifiedEntry le
        else .ok le) l2 = .ok l3) :
    ∀ le ∈ l3, le.action_type = "pretix.event.order.contact.changed" →
      le.shredded = true := by
  intro le hmem hact
  obtain ⟨b, hbmem, hstep⟩ := mapE_ok_mem h3 le hmem
  by_cases hg : modifiedGuard b = true
  · rw [if_pos hg] at hstep
    have ha := (emailModifiedEntry_ok hstep).1
    have hb := (modifiedGuard_eq_true hg).1
    rw [ha, hb] at hact
    exact absurd hact (by decide)
  · rw [if_neg hg] at hstep
    injection hstep with h1
    subst h1
    exact h2fact b hbmem hact

/-- Claim C2 (amended): after a successful `shred_data()`, the targeted
record fields are null (order emails, attendee emails, attendee names) or
the targeted rows deleted (invoice addresses, question answers), and
every log entry scanned by the shredder whose payload contains the key
that shredder masks — any payload for the two email-specific scans, the
`data` key for the order-modified scans, a non-boolean `invoice_data` for
the invoice scan — ends with `shredded = true`; scanned order-modified
entries lacking that key are left unmarked. -/
theorem c2_shred_data_marks (e : Event) :
    (∀ e', shred_data_email e = .ok e' →
      (∀ o ∈ e'.orders, o.email = none) ∧
      (∀ p ∈ e'.positions, p.attendee_email = none) ∧
      (∀ le ∈ e'.logentries,
        (strContains le.action_type "order.email" = true → le.shredded = true) ∧
        (le.action_type = "pretix.event.order.contact.changed" →
          le.shredded = true) ∧
        (∀ d, le.action_type = "pretix.event.order.modified" →
          le.data = some d → hasKey d "data" = true → le.shredded = true))) ∧
    (∀ e', shred_data_name e = .ok e' →
      (∀ p ∈ e'.positions, p.attendee_name = none) ∧
      (∀ le ∈ e'.logentries, ∀ d,
        le.action_type = "pretix.event.order.modified" → le.data = some d →
        hasKey d "data" = true → le.shredded = true)) ∧
    (∀ e', shred_data_invoice e = .ok e' →
      e'.invoice_addresses = [] ∧
      (∀ le ∈ e'.logentries, ∀ d v,
        le.action_type = "pretix.event.order.modified" → le.data = some d →
        lookup d "invoice_data" = some v → v.isBool = false →
        le.shredded = true)) ∧
    (∀ e', shred_data_qa e = .ok e' →
      e'.answers = [] ∧
      (∀ le ∈ e'.logentries, ∀ d,
        le.action_type = "pretix.event.order.modified" → le.data = some d →
        hasKey d "data" = true → le.shredded = true)) := by
  refine ⟨?_, ?_, ?_, ?_⟩
  · intro e' he
    simp only [shred_data_email] at he
    cases hm1 : mapE (fun le =>
        if strContains le.action_type "order.email" then
          shred_log_fields le (some ["recipient", "message"]) none
        else .ok le) e.logentries with
    | error err => simp only [hm1] at he; exact Except.noConfusion he
    | ok l1 =>
      simp only [hm1] at he
      cases hm2 : mapE (fun le =>
          if le.action_type == "pretix.event.order.contact.changed" then
            shred_log_fields le (some ["old_email", "new_email"]) none
          else .ok le) l1 with
      | error err => simp only [hm2] at he; exact Except.noConfusion he
      | ok l2 =>
        simp only [hm2] at he
        cases hm3 : mapE (fun le =>
            if modifiedGuard le then emailModifiedEntry le else .ok le) l2 with
        | error err => simp only [hm3] at he; exact Except.noConfusion he
        | ok l3 =>
          simp only [hm3] at he
          injection he with he1
          subst he1
          refine ⟨?_, ?_, ?_⟩
          · intro o ho
            obtain ⟨o0, _, rfl⟩ := List.mem_map.mp ho
            cases he0 : o0.email <;> simp [he0]
          · intro p hp
            obtain ⟨p0, _, rfl⟩ := List.mem_map.mp hp
            cases hp0 : p0.attendee_email <;> simp [hp0]
          · intro le hmem
            refine ⟨?_, ?_, ?_⟩
            · exact email_pass3_keeps_contains
                (email_pass2_keeps_contains (email_pass1_fact hm1) hm2) hm3 le hmem
            · exact email_pass3_keeps_contact (email_pass2_fact hm2) hm3 le hmem
            · exact modified_pass_fact (fun hab => emailModifiedEntry_ok hab)
                hm3 le hmem
  · intro e' he
    simp only [shred_data_name] at he
    cases hm1 : mapE (fun le =>
        if modifiedGuard le then nameModifiedEntry le else .ok le)
        e.logentries with
    | error err => simp only [hm1] at he; exact Except.noConfusion he
    | ok l1 =>
      simp only [hm1] at he
      injection he with he1
      subst he1
      constructor
      · intro p hp
        obtain ⟨p0, _, rfl⟩ := List.mem_map.mp hp
        cases hp0 : p0.attendee_name <;> simp [hp0]
      · exact modified_pass_fact (fun hab => nameModifiedEntry_ok hab) hm1
  · intro e' he
    simp only [shred_data_invoice] at he
    cases hm1 : mapE (fun le =>
        if modifiedGuard le then invoiceModifiedEntry le else .ok le)
        e.logentries with
    | error err => simp only [hm1] at he; exact Except.noConfusion he
    | ok l1 =>
      simp only [hm1] at he
      injection he with he1
      subst he1
      exact ⟨rfl, invoice_pass_fact hm1⟩
  · intro e' he
    simp only [shred_data_qa] at he
    cases hm1 : mapE (fun le =>
        if modifiedGuard le then qaModifiedEntry le else .ok le)
        e.logentries with
    | error err => simp only [hm1] at he; exact Except.noConfusion he
    | ok l1 =>
      simp only [hm1] at he
      injection he with he1
      subst he1
      exact ⟨rfl, modified_pass_fact (fun hab => qaModifiedEntry_ok hab) hm1⟩

/-- Claim C2 (counterexample): `evNoDataKey` holds one order-modified
entry with a nonempty data string whose payload lacks the `data` key.
The email shredder scans it — it passes the action-type filter and the
`exclude(data="")` — reads its payload, and completes successfully, yet
the entry stays `shredded = false`: not every scanned entry ends marked. -/
theorem c2_counterexample :
    shred_data_email evNoDataKey = .ok evNoDataKey ∧
    evNoDataKey.logentries = [leNoDataKey] ∧
    leNoDataKey.action_type = "pretix.event.order.modified" ∧
    leNoDataKey.data.isSome = true ∧
    leNoDataKey.shredded = false :=
  ⟨rfl, rfl, rfl, rfl, rfl⟩

/-- Claim C2 (witness): all four shredders applied to the populated
witness event; emails and names are nulled, invoice-address and answer
rows deleted. -/
theorem c2_witness :
    (Order.mk "ORD1" none).email = none ∧
    (OrderPosition.mk 1 "ORD1" 1 none (some "j@x.com")).attendee_name = none ∧
    (exGetD (shred_data_invoice evFull) evFull).invoice_addresses = [] ∧
    (exGetD (shred_data_qa evFull) evFull).answers = [] := by
  refine ⟨?_, ?_, ?_, ?_⟩
  · exact ((c2_shred_data_marks evFull).1 _ rfl).1 (Order.mk "ORD1" none)
      (show Order.mk "ORD1" none ∈
        (exGetD (shred_data_email evFull) evFull).orders from List.Mem.head _)
  · exact ((c2_shred_data_marks evFull).2.1 _ rfl).1
      (OrderPosition.mk 1 "ORD1" 1 none (some "j@x.com"))
      (show OrderPosition.mk 1 "ORD1" 1 none (some "j@x.com") ∈
        (exGetD (shred_data_name evFull) evFull).positions from List.Mem.head _)
  · exact ((c2_shred_data_marks evFull).2.2.1 _ rfl).1
  · exact ((c2_shred_data_marks evFull).2.2.2 _ rfl).1

end Shredder
